import Mathlib

set_option maxRecDepth 8000

/-!
Verification of the Bedrock AgentCore stream decoding pipeline:
the line classifier and stream splitter (`parse_json_line`, `parse_stream`),
the message assembler (`MessageAssembler.process_event`) and the CLI
thinking-tag scanner (`CLIStreamDisplay._handle_content_with_thinking`).

Python values decoded by `json.loads` are modelled by `JValue`; numbers keep
their source lexeme (no claim depends on numeric value).  A Python statement
that can raise is modelled with an explicit exception outcome.  Wall-clock
timestamps on events are omitted (they carry no information about the data
flow).  Text is modelled as `List Char`.
-/

/-- A JSON value as produced by `json.loads`.  Object fields keep insertion
order; duplicate keys are collapsed by the parser (last value wins), matching
Python dict semantics.  `jnum` stores the numeric lexeme. -/
inductive JValue : Type where
  | jnull : JValue
  | jbool : Bool → JValue
  | jnum : List Char → JValue
  | jstr : List Char → JValue
  | jarr : List JValue → JValue
  | jobj : List (List Char × JValue) → JValue

instance : Inhabited JValue := ⟨JValue.jnull⟩

def lbrace : Char := Char.ofNat 123

def rbrace : Char := Char.ofNat 125

/-- JSON whitespace accepted between tokens by `json.loads`. -/
def isJsonWs (c : Char) : Bool :=
  c = ' ' || c = '\t' || c = '\n' || c = '\r'

def skipWs (s : List Char) : List Char := s.dropWhile isJsonWs

/-- Whitespace stripped by Python `str.strip()` (ASCII part). -/
def isPyWs (c : Char) : Bool :=
  c = ' ' || c = '\t' || c = '\n' || c = '\r' || c = '\x0b' || c = '\x0c'

/-- Python `not line.strip()`: the line is empty or all whitespace. -/
def pyStripEmpty (l : List Char) : Bool := l.all isPyWs

def hexVal (c : Char) : Option Nat :=
  if c.isDigit then some (c.toNat - 48)
  else if 'a' ≤ c && c ≤ 'f' then some (c.toNat - 87)
  else if 'A' ≤ c && c ≤ 'F' then some (c.toNat - 55)
  else none

/-- Body of a JSON string after the opening quote: returns the decoded
characters and the remainder after the closing quote.  Control characters and
invalid escapes are errors, as in strict `json.loads`. -/
def parseStr : List Char → Option (List Char × List Char)
  | [] => none
  | '"' :: r => some ([], r)
  | '\\' :: r =>
    match r with
    | '"' :: r1 => (parseStr r1).map (fun p => ('"' :: p.1, p.2))
    | '\\' :: r1 => (parseStr r1).map (fun p => ('\\' :: p.1, p.2))
    | '/' :: r1 => (parseStr r1).map (fun p => ('/' :: p.1, p.2))
    | 'b' :: r1 => (parseStr r1).map (fun p => ('\x08' :: p.1, p.2))
    | 'f' :: r1 => (parseStr r1).map (fun p => ('\x0c' :: p.1, p.2))
    | 'n' :: r1 => (parseStr r1).map (fun p => ('\n' :: p.1, p.2))
    | 'r' :: r1 => (parseStr r1).map (fun p => ('\r' :: p.1, p.2))
    | 't' :: r1 => (parseStr r1).map (fun p => ('\t' :: p.1, p.2))
    | 'u' :: a :: b :: c :: d :: r1 =>
      match hexVal a, hexVal b, hexVal c, hexVal d with
      | some ha, some hb, some hc, some hd =>
        (parseStr r1).map
          (fun p => (Char.ofNat (((ha * 16 + hb) * 16 + hc) * 16 + hd) :: p.1, p.2))
      | _, _, _, _ => none
    | _ => none
  | c :: r =>
    if c.toNat < 32 then none
    else (parseStr r).map (fun p => (c :: p.1, p.2))

/-- Optional fraction part `.digits` of a number lexeme. -/
def numFrac : List Char → List Char × List Char
  | '.' :: c :: r =>
    if c.isDigit then
      let p := List.span Char.isDigit (c :: r)
      ('.' :: p.1, p.2)
    else ([], '.' :: c :: r)
  | s => ([], s)

/-- Optional exponent part of a number lexeme. -/
def numExp : List Char → List Char × List Char
  | [] => ([], [])
  | e :: rest =>
    if e = 'e' || e = 'E' then
      match rest with
      | '+' :: c :: r =>
        if c.isDigit then
          let p := List.span Char.isDigit (c :: r)
          (e :: '+' :: p.1, p.2)
        else ([], e :: rest)
      | '-' :: c :: r =>
        if c.isDigit then
          let p := List.span Char.isDigit (c :: r)
          (e :: '-' :: p.1, p.2)
        else ([], e :: rest)
      | c :: r =>
        if c.isDigit then
          let p := List.span Char.isDigit (c :: r)
          (e :: p.1, p.2)
        else ([], e :: rest)
      | [] => ([], [e])
    else ([], e :: rest)

/-- A JSON number lexeme: `-?(0|[1-9][0-9]*)(\.[0-9]+)?([eE][+-]?[0-9]+)?`. -/
def parseNum (s : List Char) : Option (JValue × List Char) :=
  let sgn : List Char × List Char :=
    match s with
    | '-' :: r => (['-'], r)
    | _ => ([], s)
  match sgn.2 with
  | '0' :: r =>
    let f := numFrac r
    let e := numExp f.2
    some (.jnum (sgn.1 ++ ['0'] ++ f.1 ++ e.1), e.2)
  | c :: r =>
    if c.isDigit then
      let ds := List.span Char.isDigit (c :: r)
      let f := numFrac ds.2
      let e := numExp f.2
      some (.jnum (sgn.1 ++ ds.1 ++ f.1 ++ e.1), e.2)
    else none
  | [] => none

/-- Insert a key into an object, overwriting an existing binding in place
(Python dict assignment). -/
def objInsert (f : List (List Char × JValue)) (k : List Char) (v : JValue) :
    List (List Char × JValue) :=
  if f.any (fun p => p.1 == k) then
    f.map (fun p => if p.1 == k then (k, v) else p)
  else f ++ [(k, v)]

mutual

/-- One JSON value, fuel-bounded recursive descent (fuel only bounds nesting,
`length s + 1` always suffices). -/
def parseVal : Nat → List Char → Option (JValue × List Char)
  | 0, _ => none
  | fuel + 1, s =>
    match s with
    | [] => none
    | 'n' :: 'u' :: 'l' :: 'l' :: r1 => some (.jnull, r1)
    | 't' :: 'r' :: 'u' :: 'e' :: r1 => some (.jbool true, r1)
    | 'f' :: 'a' :: 'l' :: 's' :: 'e' :: r1 => some (.jbool false, r1)
    | 'N' :: 'a' :: 'N' :: r1 => some (.jnum ('N' :: 'a' :: 'N' :: []), r1)
    | 'I' :: 'n' :: 'f' :: 'i' :: 'n' :: 'i' :: 't' :: 'y' :: r1 =>
      some (.jnum ("Infinity".toList), r1)
    | '-' :: 'I' :: 'n' :: 'f' :: 'i' :: 'n' :: 'i' :: 't' :: 'y' :: r1 =>
      some (.jnum ("-Infinity".toList), r1)
    | '"' :: r1 => (parseStr r1).map (fun p => (.jstr p.1, p.2))
    | c :: r1 =>
      if c = lbrace then
        match skipWs r1 with
        | c2 :: r2 =>
          if c2 = rbrace then some (.jobj [], r2)
          else parseMembers fuel (c2 :: r2) []
        | [] => none
      else if c = '[' then
        match skipWs r1 with
        | ']' :: r2 => some (.jarr [], r2)
        | s2 => parseElems fuel s2 []
      else parseNum (c :: r1)

/-- Members of an object after the opening brace (first member expected). -/
def parseMembers : Nat → List Char →
    List (List Char × JValue) → Option (JValue × List Char)
  | 0, _, _ => none
  | fuel + 1, s, acc =>
    match skipWs s with
    | '"' :: r =>
      match parseStr r with
      | none => none
      | some (k, r1) =>
        match skipWs r1 with
        | ':' :: r2 =>
          match parseVal fuel (skipWs r2) with
          | none => none
          | some (v, r3) =>
            let acc1 := objInsert acc k v
            match skipWs r3 with
            | ',' :: r4 => parseMembers fuel r4 acc1
            | c :: r4 =>
              if c = rbrace then some (.jobj acc1, r4) else none
            | [] => none
        | _ => none
    | _ => none

/-- Elements of an array after the opening bracket (first element expected). -/
def parseElems : Nat → List Char → List JValue → Option (JValue × List Char)
  | 0, _, _ => none
  | fuel + 1, s, acc =>
    match parseVal fuel (skipWs s) with
    | none => none
    | some (v, r1) =>
      match skipWs r1 with
      | ',' :: r2 => parseElems fuel r2 (acc ++ [v])
      | ']' :: r2 => some (.jarr (acc ++ [v]), r2)
      | _ => none

end

/-- Model of `json.loads`: parse a complete JSON document, requiring the whole input to
be consumed (up to whitespace). -/
def jloads (s : List Char) : Option JValue :=
  match parseVal (s.length + 1) (skipWs s) with
  | some (v, rest) => if skipWs rest = [] then some v else none
  | none => none

example : jloads ("5".toList) = some (.jnum ['5']) := by rfl
example : jloads ("\x7b\"q\":\"x\"\x7d".toList)
    = some (.jobj [("q".toList, .jstr ("x".toList))]) := by rfl
example : jloads ("\x7b\"q\":\"x\"broken".toList) = none := by rfl
example : jloads ("[\"result\"]".toList) = some (.jarr [.jstr ("result".toList)]) := by rfl
example : jloads ("".toList) = none := by rfl
example : jloads (" null ".toList) = some .jnull := by rfl

/-- The `EventType` enum of `types.py`. -/
inductive EventType : Type where
  | message_start | message_delta | message_stop
  | content_block_start | content_block_delta | content_block_stop
  | thinking_start | thinking_delta | thinking_stop
  | tool_use_start | tool_use_delta | tool_use_stop
  | tool_result | error | ping | unknown
deriving DecidableEq

/-- A `StreamEvent` as constructed by the parser.  The wall-clock `timestamp`
field is omitted; `raw_event` is the source line. -/
structure StreamEvent : Type where
  type : EventType
  data : JValue
  raw_event : List Char

/-- Outcome of a Python expression that may raise. -/
inductive Py (α : Type) : Type where
  | ok : α → Py α
  | exn : Py α

/-- Outcome of `parse_json_line`: an event, `None`, or an uncaught exception. -/
inductive LineOut : Type where
  | ev : StreamEvent → LineOut
  | skip : LineOut
  | exn : LineOut

def LineOut.eventType? : LineOut → Option EventType
  | .ev e => some e.type
  | _ => none

def keyMem (f : List (List Char × JValue)) (k : List Char) : Bool :=
  f.any (fun p => p.1 == k)

def jget (f : List (List Char × JValue)) (k : List Char) : Option JValue :=
  (f.find? (fun p => p.1 == k)).map (fun p => p.2)

/-- Lookup a key in a JSON value only when it is an object. -/
def jobjGet : JValue → List Char → Option JValue
  | .jobj f, k => jget f k
  | _, _ => none

/-- Substring test: does `hay` contain `needle` as a contiguous run? -/
def strContains (hay needle : List Char) : Bool :=
  needle.isPrefixOf hay ||
    match hay with
    | [] => false
    | _ :: t => strContains t needle

/-- Python `k in data`.  Dicts test keys, lists test membership of the string,
strings test substring; other types raise TypeError. -/
def pyIn (k : List Char) : JValue → Py Bool
  | .jobj f => .ok (keyMem f k)
  | .jarr xs => .ok (xs.any (fun v => match v with | .jstr s => s == k | _ => false))
  | .jstr s => .ok (strContains s k)
  | _ => .exn

/-- Python `data[k]` for a string key: dict lookup (KeyError if absent);
any other receiver raises TypeError. -/
def pyIndex : JValue → List Char → Py JValue
  | .jobj f, k =>
    match jget f k with
    | some v => .ok v
    | none => .exn
  | _, _ => .exn

/-- Python `data.get(k, dflt)`: only dicts have `.get`; anything else raises
AttributeError. -/
def pyGet : JValue → List Char → JValue → Py JValue
  | .jobj f, k, dflt => .ok ((jget f k).getD dflt)
  | _, _, _ => .exn

def eventKey : List Char := "event".toList
def messageKey : List Char := "message".toList
def resultKey : List Char := "result".toList
def dataKey : List Char := "data".toList
def initEventLoopKey : List Char := "init_event_loop".toList
def startKey : List Char := "start".toList
def startEventLoopKey : List Char := "start_event_loop".toList
def msgStartKey : List Char := "messageStart".toList
def cbDeltaKey : List Char := "contentBlockDelta".toList
def cbStartKey : List Char := "contentBlockStart".toList
def cbStopKey : List Char := "contentBlockStop".toList
def msgStopKey : List Char := "messageStop".toList
def metadataKey : List Char := "metadata".toList
def deltaKey : List Char := "delta".toList
def textKey : List Char := "text".toList
def reasoningKey : List Char := "reasoningContent".toList
def toolUseKey : List Char := "toolUse".toList
def inputKey : List Char := "input".toList
def toolUseIdKey : List Char := "toolUseId".toList
def nameKey : List Char := "name".toList
def idKey : List Char := "id".toList
def roleKey : List Char := "role".toList
def modelKey : List Char := "model".toList
def usageKey : List Char := "usage".toList
def stopReasonKey : List Char := "stop_reason".toList

/-- The `"contentBlockDelta"` branch of `parse_json_line`. -/
def classifyDelta (flag : Bool) (line : List Char) (ed : JValue) : Bool × LineOut :=
  match pyIndex ed cbDeltaKey with
  | .exn => (flag, .exn)
  | .ok dd =>
    match pyGet dd deltaKey (.jobj []) with
    | .exn => (flag, .exn)
    | .ok di =>
      match pyIn reasoningKey di with
      | .exn => (flag, .exn)
      | .ok true =>
        match pyIndex di reasoningKey with
        | .exn => (flag, .exn)
        | .ok rd =>
          match pyGet rd textKey (.jstr []) with
          | .exn => (flag, .exn)
          | .ok txt =>
            (flag, .ev ⟨.thinking_delta, .jobj [(deltaKey, .jobj [(textKey, txt)])], line⟩)
      | .ok false =>
        match pyIn toolUseKey di with
        | .exn => (flag, .exn)
        | .ok true =>
          match pyIndex di toolUseKey with
          | .exn => (flag, .exn)
          | .ok tu =>
            match pyGet tu inputKey (.jstr []) with
            | .exn => (flag, .exn)
            | .ok inp =>
              (flag, .ev ⟨.tool_use_delta, .jobj [(deltaKey, .jobj [(inputKey, inp)])], line⟩)
        | .ok false => (flag, .ev ⟨.content_block_delta, dd, line⟩)

/-- The `"contentBlockStart"` branch of `parse_json_line`. -/
def classifyStart (flag : Bool) (line : List Char) (ed : JValue) : Bool × LineOut :=
  match pyIndex ed cbStartKey with
  | .exn => (flag, .exn)
  | .ok bd =>
    match pyGet bd startKey (.jobj []) with
    | .exn => (flag, .exn)
    | .ok sd =>
      match pyIn reasoningKey sd with
      | .exn => (flag, .exn)
      | .ok true => (true, .ev ⟨.thinking_start, .jobj [], line⟩)
      | .ok false =>
        match pyIn toolUseKey sd with
        | .exn => (flag, .exn)
        | .ok true =>
          match pyIndex sd toolUseKey with
          | .exn => (flag, .exn)
          | .ok tu =>
            match pyGet tu toolUseIdKey .jnull with
            | .exn => (flag, .exn)
            | .ok idv =>
              match pyGet tu nameKey .jnull with
              | .exn => (flag, .exn)
              | .ok nv =>
                (flag, .ev ⟨.tool_use_start, .jobj [(idKey, idv), (nameKey, nv)], line⟩)
        | .ok false => (flag, .ev ⟨.content_block_start, bd, line⟩)

/-- The `if "event" in data` dispatch of `parse_json_line`, over the nested
event object `ed`, in source branch order. -/
def classifyEvent (flag : Bool) (line : List Char) (ed : JValue) : Bool × LineOut :=
  match pyIn msgStartKey ed with
  | .exn => (flag, .exn)
  | .ok true =>
    match pyIndex ed msgStartKey with
    | .exn => (flag, .exn)
    | .ok v => (flag, .ev ⟨.message_start, v, line⟩)
  | .ok false =>
    match pyIn cbDeltaKey ed with
    | .exn => (flag, .exn)
    | .ok true => classifyDelta flag line ed
    | .ok false =>
      match pyIn cbStartKey ed with
      | .exn => (flag, .exn)
      | .ok true => classifyStart flag line ed
      | .ok false =>
        match pyIn cbStopKey ed with
        | .exn => (flag, .exn)
        | .ok true =>
          match pyIndex ed cbStopKey with
          | .exn => (flag, .exn)
          | .ok sd =>
            if flag then (false, .ev ⟨.thinking_stop, .jobj [], line⟩)
            else (flag, .ev ⟨.content_block_stop, sd, line⟩)
        | .ok false =>
          match pyIn msgStopKey ed with
          | .exn => (flag, .exn)
          | .ok true =>
            match pyIndex ed msgStopKey with
            | .exn => (flag, .exn)
            | .ok v => (flag, .ev ⟨.message_stop, v, line⟩)
          | .ok false =>
            match pyIn metadataKey ed with
            | .exn => (flag, .exn)
            | .ok true =>
              match pyIndex ed metadataKey with
              | .exn => (flag, .exn)
              | .ok v => (flag, .ev ⟨.unknown, v, line⟩)
            | .ok false => (flag, .ev ⟨.unknown, ed, line⟩)

/-- Dispatch of `parse_json_line` on a decoded non-string JSON value, in
source branch order: `"event"`, `"message"`, `"result"`, initialization keys,
`"data"`, otherwise `None`. -/
def dispatchTop (flag : Bool) (line : List Char) (data : JValue) : Bool × LineOut :=
  match pyIn eventKey data with
  | .exn => (flag, .exn)
  | .ok true =>
    match pyIndex data eventKey with
    | .exn => (flag, .exn)
    | .ok ed => classifyEvent flag line ed
  | .ok false =>
    match pyIn messageKey data with
    | .exn => (flag, .exn)
    | .ok true =>
      match pyIndex data messageKey with
      | .exn => (flag, .exn)
      | .ok v => (flag, .ev ⟨.unknown, v, line⟩)
    | .ok false =>
      match pyIn resultKey data with
      | .exn => (flag, .exn)
      | .ok true => (flag, .ev ⟨.unknown, data, line⟩)
      | .ok false =>
        match pyIn initEventLoopKey data with
        | .exn => (flag, .exn)
        | .ok true => (flag, .ev ⟨.unknown, data, line⟩)
        | .ok false =>
          match pyIn startKey data with
          | .exn => (flag, .exn)
          | .ok true => (flag, .ev ⟨.unknown, data, line⟩)
          | .ok false =>
            match pyIn startEventLoopKey data with
            | .exn => (flag, .exn)
            | .ok true => (flag, .ev ⟨.unknown, data, line⟩)
            | .ok false =>
              match pyIn dataKey data with
              | .exn => (flag, .exn)
              | .ok true => (flag, .ev ⟨.unknown, data, line⟩)
              | .ok false => (flag, .skip)

/-- The body of `parse_json_line` applied to a decoded value: skip strings, then dispatch. -/
def classifyData (flag : Bool) (line : List Char) (data : JValue) : Bool × LineOut :=
  match data with
  | .jstr _ => (flag, .skip)
  | d => dispatchTop flag line d

/-- Model of `StreamEventParser.parse_json_line`, threading the one-bit
`in_reasoning_block` flag.  Returns the flag after the call and the outcome. -/
def parseJsonLine (flag : Bool) (line : List Char) : Bool × LineOut :=
  if pyStripEmpty line then (flag, .skip)
  else
    match jloads line with
    | none => (flag, .skip)
    | some data => classifyData flag line data

example : parseJsonLine false ("".toList) = (false, .skip) := by rfl
example : parseJsonLine false ("not json".toList) = (false, .skip) := by rfl
example : parseJsonLine false ("\"a string\"".toList) = (false, .skip) := by rfl
example : parseJsonLine false ("5".toList) = (false, .exn) := by rfl
example :
    (parseJsonLine false ("\x7b\"event\":\x7b\"messageStart\":\x7b\"role\":\"assistant\"\x7d\x7d\x7d".toList)).2.eventType?
      = some .message_start := by rfl
example :
    (parseJsonLine false ("\x7b\"event\":\x7b\"contentBlockStop\":\x7b\x7d\x7d\x7d".toList))
      = (false, .ev ⟨.content_block_stop, .jobj [], "\x7b\"event\":\x7b\"contentBlockStop\":\x7b\x7d\x7d\x7d".toList⟩) := by rfl
example :
    (parseJsonLine true ("\x7b\"event\":\x7b\"contentBlockStop\":\x7b\x7d\x7d\x7d".toList)).1 = false := by rfl
example :
    (parseJsonLine true ("\x7b\"event\":\x7b\"contentBlockStop\":\x7b\x7d\x7d\x7d".toList)).2.eventType?
      = some .thinking_stop := by rfl
example :
    (parseJsonLine false ("\x7b\"event\":\x7b\"contentBlockStart\":\x7b\"start\":\x7b\"reasoningContent\":\x7b\x7d\x7d\x7d\x7d\x7d".toList)).1 = true := by rfl
example :
    (parseJsonLine false ("\x7b\"event\":\x7b\"contentBlockDelta\":\x7b\"delta\":\x7b\"text\":\"Hi\"\x7d\x7d\x7d\x7d".toList)).2.eventType?
      = some .content_block_delta := by rfl

/-- Python `text.split(chr(10))`: the list of segments between newlines;
never empty, one more segment than newlines. -/
def pySplit : List Char → List (List Char)
  | [] => [[]]
  | c :: cs =>
    if c = '\n' then [] :: pySplit cs
    else
      match pySplit cs with
      | [] => [[c]]
      | s :: ss => (c :: s) :: ss

/-- Python `text.endswith(chr(10))`. -/
def endsNl : List Char → Bool
  | [] => false
  | [c] => c = '\n'
  | _ :: (c :: cs) => endsNl (c :: cs)

/-- Python `lines[-1]` (with `[]` for an empty list, unreachable here). -/
def lastSeg : List (List Char) → List Char
  | [] => []
  | [s] => s
  | _ :: (s :: ss) => lastSeg (s :: ss)

/-- Holds when the buffer contains no newline (invariant of the carry
buffer of `parse_stream`). -/
def noNl : List Char → Bool
  | [] => true
  | c :: cs => if c = '\n' then false else noNl cs

/-- Result of running the classifier over a line sequence: final
`in_reasoning_block` flag, events yielded in order, and whether the run was
aborted by an uncaught exception. -/
structure RunOut : Type where
  flag : Bool
  evs : List StreamEvent
  raised : Bool

/-- Feed lines to `parse_json_line` in order, yielding events, stopping at the
first uncaught exception. -/
def runLines (flag : Bool) : List (List Char) → RunOut
  | [] => ⟨flag, [], false⟩
  | l :: ls =>
    match parseJsonLine flag l with
    | (flag1, .exn) => ⟨flag1, [], true⟩
    | (flag1, .skip) => runLines flag1 ls
    | (flag1, .ev e) =>
      let r := runLines flag1 ls
      ⟨r.flag, e :: r.evs, r.raised⟩

/-- Sequence a finished run with a continuation (used to state that runs over
concatenated line lists compose). -/
def RunOut.seq (r : RunOut) (k : Bool → RunOut) : RunOut :=
  if r.raised then r
  else
    let r2 := k r.flag
    ⟨r2.flag, r.evs ++ r2.evs, r2.raised⟩

/-- The generator branch of `StreamEventParser.parse_stream`: feed each chunk,
split the carry buffer on newlines, keep the last segment when the buffer does
not end in a newline, parse the rest; on stream end the remaining buffer is
dropped. -/
def feedChunks (flag : Bool) (buf : List Char) : List (List Char) → RunOut
  | [] => ⟨flag, [], false⟩
  | c :: cs =>
    let nbuf := buf ++ c
    let lines := pySplit nbuf
    let toParse := if endsNl nbuf then lines else lines.dropLast
    let buf1 := if endsNl nbuf then [] else lastSeg lines
    (runLines flag toParse).seq (fun b => feedChunks b buf1 cs)

/-- Model of `parse_stream` on a `str`/`bytes` argument: split the whole text and parse
every segment (including a trailing unterminated one). -/
def parseStreamText (text : List Char) : RunOut :=
  runLines false (pySplit text)

/-- Model of `parse_stream` on a chunk generator, from a fresh parser. -/
def parseStreamChunks (chunks : List (List Char)) : RunOut :=
  feedChunks false [] chunks

/-- The `input` field of a finished tool-use content block: parsed JSON, or
the raw accumulated string when parsing fails (or the accumulator is empty). -/
inductive ToolInput : Type where
  | rawStr : List Char → ToolInput
  | parsed : JValue → ToolInput

/-- A content block appended to `message["content"]`: a text block dict or a
tool-use block dict. -/
inductive PyBlock : Type where
  | textBlock : List Char → PyBlock
  | toolBlock : JValue → JValue → ToolInput → PyBlock

/-- The message dict built by `MessageAssembler`.  `stop_reason` is `none`
until the `messageStop` branch adds the key. -/
structure PyMessage : Type where
  role : JValue
  content : List PyBlock
  thinking : Option (List Char)
  model : JValue
  usage : JValue
  stop_reason : Option JValue

/-- Values of `current_block_type`: `"text"` or `"tool_use"`. -/
inductive BlockType : Type where
  | text : BlockType
  | tool_use : BlockType
deriving DecidableEq

/-- A `tool_buffer` entry: the dict built at TOOL_USE_START whose `input`
string accumulates deltas (it is replaced by parsed JSON only transiently at
finalization, after which the entry is deleted). -/
structure ToolAcc : Type where
  tid : JValue
  name : JValue
  input : List Char

/-- Equality used for `tool_buffer` dict keys.  Keys reaching the buffer are
hashable scalars; numbers compare by lexeme (the claims never key tools by
numerically-equal-but-distinct lexemes). -/
def jscalarEq : JValue → JValue → Bool
  | .jnull, .jnull => true
  | .jbool a, .jbool b => a == b
  | .jnum a, .jnum b => a == b
  | .jstr a, .jstr b => a == b
  | _, _ => false

/-- Python would raise TypeError when using an unhashable value as a dict
key. -/
def unhashable : JValue → Bool
  | .jobj _ => true
  | .jarr _ => true
  | _ => false

def dictMem (buf : List (JValue × ToolAcc)) (k : JValue) : Bool :=
  buf.any (fun p => jscalarEq p.1 k)

def dictGet (buf : List (JValue × ToolAcc)) (k : JValue) : Option ToolAcc :=
  (buf.find? (fun p => jscalarEq p.1 k)).map (fun p => p.2)

/-- Dict assignment: replace the binding when present, else append. -/
def dictInsert (buf : List (JValue × ToolAcc)) (k : JValue) (v : ToolAcc) :
    List (JValue × ToolAcc) :=
  if dictMem buf k then
    buf.map (fun p => if jscalarEq p.1 k then (k, v) else p)
  else buf ++ [(k, v)]

/-- Dict deletion of a key. -/
def dictDel (buf : List (JValue × ToolAcc)) (k : JValue) :
    List (JValue × ToolAcc) :=
  buf.filter (fun p => !jscalarEq p.1 k)

/-- Append delta text to the `input` of the entry at key `k`. -/
def dictAppendInput (buf : List (JValue × ToolAcc)) (k : JValue)
    (txt : List Char) : List (JValue × ToolAcc) :=
  buf.map (fun p => if jscalarEq p.1 k then (p.1, { p.2 with input := p.2.input ++ txt }) else p)

/-- The state of `MessageAssembler`.  `current_tool_id : Option _` models
attribute presence (`hasattr`/`delattr`); `content_buffer` is written at
MESSAGE_START and never read, kept for fidelity. -/
structure AsmState : Type where
  current_message : Option PyMessage
  current_content : Option (List Char)
  current_block_type : Option BlockType
  thinking_buffer : List JValue
  content_buffer : List JValue
  tool_buffer : List (JValue × ToolAcc)
  current_tool_id : Option JValue

def initAsm : AsmState := ⟨none, none, none, [], [], [], none⟩

/-- Python `"".join(thinking_buffer)`: TypeError when an element is not a
string. -/
def pyJoin : List JValue → Py (List Char)
  | [] => .ok []
  | .jstr s :: rest =>
    match pyJoin rest with
    | .ok t => .ok (s ++ t)
    | .exn => .exn
  | _ :: _ => .exn

/-- Shared finalization of a tool-use block (`CONTENT_BLOCK_STOP` tool branch
and `TOOL_USE_STOP`): when the id is buffered and a message exists, parse the
accumulated input (`json.loads`, kept raw on failure or when empty), append
the block, delete the buffer entry. -/
def finalizeTool (s : AsmState) (tid : JValue) : AsmState :=
  match dictGet s.tool_buffer tid, s.current_message with
  | some acc, some m =>
    let inp : ToolInput :=
      if acc.input = [] then .rawStr acc.input
      else
        match jloads acc.input with
        | some j => .parsed j
        | none => .rawStr acc.input
    { s with
      current_message := some { m with content := m.content ++ [.toolBlock acc.tid acc.name inp] },
      tool_buffer := dictDel s.tool_buffer tid }
  | _, _ => s

/-- Outcome of one `process_event` call: the value returned (a message only
in the MESSAGE_STOP branch) or an uncaught exception. -/
inductive StepOut : Type where
  | ret : Option PyMessage → StepOut
  | exn : StepOut

/-- Model of `MessageAssembler.process_event`.  Returns the assembler state after the
call (on an exception: the mutations made before the raise) and the outcome. -/
def processEvent (s : AsmState) (e : StreamEvent) : AsmState × StepOut :=
  match e.type with
  | .message_start =>
    match pyGet e.data roleKey (.jstr ("assistant".toList)) with
    | .exn => (s, .exn)
    | .ok role =>
      match pyGet e.data modelKey .jnull with
      | .exn => (s, .exn)
      | .ok model =>
        ({ s with
            current_message := some ⟨role, [], none, model, .jnull, none⟩,
            thinking_buffer := [],
            content_buffer := [] }, .ret none)
  | .thinking_delta =>
    match pyGet e.data deltaKey (.jobj []) with
    | .exn => (s, .exn)
    | .ok d =>
      match pyGet d textKey (.jstr []) with
      | .exn => (s, .exn)
      | .ok t => ({ s with thinking_buffer := s.thinking_buffer ++ [t] }, .ret none)
  | .thinking_stop =>
    match s.current_message with
    | none => (s, .ret none)
    | some m =>
      if s.thinking_buffer.isEmpty then (s, .ret none)
      else
        match pyJoin s.thinking_buffer with
        | .exn => (s, .exn)
        | .ok txt =>
          ({ s with current_message := some { m with thinking := some txt } }, .ret none)
  | .content_block_start =>
    ({ s with current_block_type := some .text, current_content := some [] }, .ret none)
  | .content_block_delta =>
    match s.current_content with
    | none => (s, .ret none)
    | some cur =>
      match pyGet e.data deltaKey (.jobj []) with
      | .exn => (s, .exn)
      | .ok d =>
        match pyGet d textKey (.jstr []) with
        | .exn => (s, .exn)
        | .ok t =>
          match t with
          | .jstr txt => ({ s with current_content := some (cur ++ txt) }, .ret none)
          | _ => (s, .exn)
  | .content_block_stop =>
    match s.current_block_type, s.current_tool_id with
    | some .tool_use, some tid =>
      let s1 := finalizeTool s tid
      ({ s1 with current_tool_id := none, current_content := none,
                 current_block_type := none }, .ret none)
    | _, _ =>
      match s.current_message, s.current_content with
      | some m, some cur =>
        ({ s with
            current_message := some { m with content := m.content ++ [.textBlock cur] },
            current_content := none, current_block_type := none }, .ret none)
      | _, _ => ({ s with current_content := none, current_block_type := none }, .ret none)
  | .tool_use_start =>
    let s0 := { s with current_block_type := some BlockType.tool_use }
    match pyGet e.data idKey .jnull with
    | .exn => (s0, .exn)
    | .ok idv =>
      match pyGet e.data nameKey .jnull with
      | .exn => (s0, .exn)
      | .ok nv =>
        if unhashable idv then (s0, .exn)
        else
          ({ s0 with
              tool_buffer := dictInsert s0.tool_buffer idv ⟨idv, nv, []⟩,
              current_tool_id := some idv }, .ret none)
  | .tool_use_delta =>
    match s.current_tool_id with
    | none => (s, .ret none)
    | some tid =>
      if dictMem s.tool_buffer tid then
        match pyGet e.data deltaKey (.jobj []) with
        | .exn => (s, .exn)
        | .ok d =>
          match pyGet d inputKey (.jstr []) with
          | .exn => (s, .exn)
          | .ok di =>
            match di with
            | .jstr txt => ({ s with tool_buffer := dictAppendInput s.tool_buffer tid txt }, .ret none)
            | _ => (s, .exn)
      else (s, .ret none)
  | .tool_use_stop =>
    match s.current_tool_id with
    | none => (s, .ret none)
    | some tid =>
      let s1 := finalizeTool s tid
      ({ s1 with current_tool_id := none }, .ret none)
  | .message_stop =>
    match s.current_message with
    | none => (s, .ret none)
    | some m =>
      match pyGet e.data usageKey .jnull with
      | .exn => (s, .exn)
      | .ok u =>
        match pyGet e.data stopReasonKey .jnull with
        | .exn => (s, .exn)
        | .ok sr =>
          let m1 := { m with usage := u, stop_reason := some sr }
          ({ s with current_message := some m1 }, .ret (some m1))
  | _ => (s, .ret none)

/-- Result of folding a list of events through the assembler: final state,
the messages returned along the way, and whether an exception aborted the
fold. -/
structure AsmRun : Type where
  state : AsmState
  msgs : List PyMessage
  raised : Bool

def processEvents (s : AsmState) : List StreamEvent → AsmRun
  | [] => ⟨s, [], false⟩
  | e :: es =>
    match processEvent s e with
    | (s1, .exn) => ⟨s1, [], true⟩
    | (s1, .ret none) => processEvents s1 es
    | (s1, .ret (some m)) =>
      let r := processEvents s1 es
      ⟨r.state, m :: r.msgs, r.raised⟩

/-- Fold an event sequence through a fresh `MessageAssembler`. -/
def assembleAll (evs : List StreamEvent) : AsmRun := processEvents initAsm evs

def thinkBegin : List Char := "<thinking>".toList

def thinkEnd : List Char := "</thinking>".toList

/-- Model of `CLIStreamDisplay._is_partial_tag`: does the text end with a strict,
nonempty prefix of either marker? -/
def isPartialTag (b : List Char) : Bool :=
  [thinkBegin, thinkEnd].any (fun tag =>
    (List.range tag.length).any (fun i => decide (1 ≤ i) && (tag.take i).isSuffixOf b))

/-- Python `hay.find(needle)`: index of the first occurrence, `none` for -1. -/
def pyFind (hay needle : List Char) : Option Nat :=
  match hay with
  | [] => if needle.isPrefixOf ([] : List Char) then some 0 else none
  | c :: t =>
    if needle.isPrefixOf (c :: t) then some 0
    else (pyFind t needle).map (fun n => n + 1)

/-- The `safe_end` loop: smallest `i` in `1.. < tag.length` such that the
buffer ends with `tag[:i]`; withhold that many characters, else nothing. -/
def safeEnd (buf tag : List Char) : Nat :=
  match (List.range tag.length).find?
      (fun i => decide (1 ≤ i) && (tag.take i).isSuffixOf buf) with
  | some i => buf.length - i
  | none => buf.length

/-- Python slice `l[a:b]` (empty when `a ≥ b`). -/
def pySlice (l : List Char) (a b : Nat) : List Char := (l.take b).drop a

/-- State of the CLI scanner: the full accumulated text, the index up to which
text has been printed, and the thinking-mode bit. -/
structure ScanState : Type where
  content_buffer : List Char
  display_position : Nat
  in_thinking : Bool

def scanInit : ScanState := ⟨[], 0, false⟩

/-- Shared tail of the complete-block paths: emit the thinking span ending at
`e`, leave thinking mode, then either print the remainder or withhold all of
it when it ends in a partial tag. -/
def scanComplete (buf : List Char) (pos1 e : Nat) (plain1 : List Char) :
    ScanState × List Char × List Char :=
  let think1 := pySlice buf pos1 e
  let pos2 := e + thinkEnd.length
  let remaining := buf.drop pos2
  if !remaining.isEmpty && !isPartialTag remaining then
    (⟨buf, buf.length, false⟩, plain1 ++ remaining, think1)
  else (⟨buf, pos2, false⟩, plain1, think1)

/-- The open-marker-only path: everything after the begin marker is thinking
text, minus a withheld partial end marker. -/
def scanOnlyOpen (buf : List Char) (pos1 : Nat) (plain1 : List Char) :
    ScanState × List Char × List Char :=
  let contentAfterOpen := buf.drop pos1
  if isPartialTag contentAfterOpen then
    let se := safeEnd buf thinkEnd
    (⟨buf, se, true⟩, plain1, pySlice buf pos1 se)
  else (⟨buf, buf.length, true⟩, plain1, contentAfterOpen)

/-- Model of `CLIStreamDisplay._handle_content_with_thinking`.  Returns the new state,
the plain text printed by this call and the thinking text printed by this
call (with `show_thinking` enabled; decorative headers are not modelled). -/
def handleContent (st : ScanState) (text : List Char) :
    ScanState × List Char × List Char :=
  match text with
  | [] => (st, [], [])
  | _ =>
    let buf := st.content_buffer ++ text
    let sIdx := pyFind buf thinkBegin
    let eIdx := pyFind buf thinkEnd
    if st.in_thinking then
      match eIdx with
      | some e => scanComplete buf st.display_position e []
      | none =>
        let cad := buf.drop st.display_position
        if isPartialTag cad then
          let se := safeEnd buf thinkEnd
          (⟨buf, se, true⟩, [], pySlice buf st.display_position se)
        else (⟨buf, buf.length, true⟩, [], cad)
    else
      match sIdx with
      | some s =>
        let plain1 := pySlice buf st.display_position s
        let pos1 := s + thinkBegin.length
        (match eIdx with
         | some e =>
           if s < e then scanComplete buf pos1 e plain1
           else scanOnlyOpen buf pos1 plain1
         | none => scanOnlyOpen buf pos1 plain1)
      | none =>
        let undisplayed := buf.drop st.display_position
        if isPartialTag undisplayed then
          let se := safeEnd buf thinkBegin
          (⟨buf, se, false⟩, pySlice buf st.display_position se, [])
        else (⟨buf, buf.length, false⟩, undisplayed, [])

/-- Feed a sequence of deltas through the scanner, concatenating the plain and
thinking outputs. -/
def scanRun (st : ScanState) : List (List Char) → ScanState × List Char × List Char
  | [] => (st, [], [])
  | t :: ts =>
    let r1 := handleContent st t
    let r2 := scanRun r1.1 ts
    (r2.1, r1.2.1 ++ r2.2.1, r1.2.2 ++ r2.2.2)

/-- Holds when the list is a strict prefix of the begin or end marker. -/
def isStrictPrefixOfMarker (s : List Char) : Bool :=
  (s.isPrefixOf thinkBegin && decide (s.length < thinkBegin.length)) ||
  (s.isPrefixOf thinkEnd && decide (s.length < thinkEnd.length))

example :
    (scanRun scanInit [("before <thinking>mid</thinking>after").toList]).2.1
      = ("before after").toList := by rfl
example :
    (scanRun scanInit [("before <thinking>mid</thinking>after").toList]).2.2
      = ("mid").toList := by rfl
example :
    (scanRun scanInit [("before <thinking>mid</thinking>").toList, ("after").toList]).2.2
      = ("midmid").toList := by rfl

/-- The content list of the message under construction (empty when none). -/
def stContent (s : AsmState) : List PyBlock :=
  match s.current_message with
  | some m => m.content
  | none => []

/-- Shape of a decoded line that reaches the `contentBlockStop` branch of the
classifier: an object whose `"event"` value is an object that has the
`contentBlockStop` key and none of the keys checked earlier. -/
def isStopShape (d : JValue) : Bool :=
  match jobjGet d eventKey with
  | some (.jobj efs) =>
    !keyMem efs msgStartKey && !keyMem efs cbDeltaKey && !keyMem efs cbStartKey &&
      keyMem efs cbStopKey
  | _ => false

/-- Shape of a decoded line that reaches the reasoning branch of
`contentBlockStart`: the `start` payload is an object containing
`reasoningContent`. -/
def isThinkingStartShape (d : JValue) : Bool :=
  match jobjGet d eventKey with
  | some (.jobj efs) =>
    !keyMem efs msgStartKey && !keyMem efs cbDeltaKey &&
      (match jget efs cbStartKey with
       | some (.jobj bfs) =>
         (match jget bfs startKey with
          | some (.jobj sfs) => keyMem sfs reasoningKey
          | _ => false)
       | _ => false)
  | _ => false

def msgStartEv : StreamEvent := ⟨.message_start, .jobj [], []⟩

def thinkStartEv : StreamEvent := ⟨.thinking_start, .jobj [], []⟩

def thinkStopEv : StreamEvent := ⟨.thinking_stop, .jobj [], []⟩

def msgStopEv : StreamEvent := ⟨.message_stop, .jobj [], []⟩

def thinkDeltaEv (t : List Char) : StreamEvent :=
  ⟨.thinking_delta, .jobj [(deltaKey, .jobj [(textKey, .jstr t)])], []⟩

def toolStartEv (idv nv : JValue) : StreamEvent :=
  ⟨.tool_use_start, .jobj [(idKey, idv), (nameKey, nv)], []⟩

def toolDeltaEv (t : List Char) : StreamEvent :=
  ⟨.tool_use_delta, .jobj [(deltaKey, .jobj [(inputKey, .jstr t)])], []⟩

def toolStopEv : StreamEvent := ⟨.tool_use_stop, .jobj [], []⟩

def cbStopEv : StreamEvent := ⟨.content_block_stop, .jobj [], []⟩

/-- The `input` value of a tool block finalized from delta texts `ds`:
the concatenation parsed as JSON, or kept as the raw string. -/
def toolFinalInput (ds : List (List Char)) : ToolInput :=
  let raw := ds.flatten
  if raw = [] then .rawStr raw
  else
    match jloads raw with
    | some j => .parsed j
    | none => .rawStr raw

/-! ## Theorems -/

example :
    (assembleAll (parseStreamText (("\x7b\"event\":\x7b\"messageStart\":\x7b\"role\":\"assistant\"\x7d\x7d\x7d\n\x7b\"event\":\x7b\"contentBlockStart\":\x7b\x7d\x7d\x7d\n\x7b\"event\":\x7b\"contentBlockDelta\":\x7b\"delta\":\x7b\"text\":\"Hi\"\x7d\x7d\x7d\x7d\n\x7b\"event\":\x7b\"contentBlockStop\":\x7b\x7d\x7d\x7d\n\x7b\"event\":\x7b\"messageStop\":\x7b\"usage\":\x7b\"totalTokens\":5\x7d,\"stop_reason\":\"end_turn\"\x7d\x7d\x7d\n").toList)).evs).msgs
      = [⟨.jstr ("assistant".toList), [.textBlock ("Hi".toList)], none, .jnull,
          .jobj [("totalTokens".toList, .jnum ['5'])], some (.jstr ("end_turn".toList))⟩] := by
  rfl

/-- C2 (code_bug evidence): `parse_json_line` is not total and does not return
`None` on every non-object JSON value.  A line decoding to a number or `null`
reaches `"event" in data` and raises TypeError (only `str` is filtered), and a
line decoding to the array `["result"]` even returns an Unknown event. -/
theorem c2_classifier_raises_on_nonobject :
    parseJsonLine false ("5".toList) = (false, .exn) ∧
    parseJsonLine true ("null".toList) = (true, .exn) ∧
    parseJsonLine false ("3.14".toList) = (false, .exn) ∧
    parseJsonLine false ("true".toList) = (false, .exn) ∧
    parseJsonLine false ("[\"result\"]".toList)
      = (false, .ev ⟨.unknown, .jarr [.jstr ("result".toList)], ("[\"result\"]").toList⟩) :=
  ⟨rfl, rfl, rfl, rfl, rfl⟩

/-- C3 (code_bug evidence): the thinking-tag scanner is not split-invariant.
Feeding the text in one delta yields thinking output `"mid"`, but splitting it
after the closing marker re-finds the old markers in the retained buffer and
emits `"midmid"`. -/
theorem c3_scanner_not_split_invariant :
    (scanRun scanInit [("before <thinking>mid</thinking>after").toList]).2.1
        = ("before after").toList ∧
    (scanRun scanInit [("before <thinking>mid</thinking>after").toList]).2.2
        = ("mid").toList ∧
    (scanRun scanInit [("before <thinking>mid</thinking>").toList, ("after").toList]).2.1
        = ("before after").toList ∧
    (scanRun scanInit [("before <thinking>mid</thinking>").toList, ("after").toList]).2.2
        = ("midmid").toList ∧
    ("midmid").toList ≠ ("mid").toList :=
  ⟨rfl, rfl, rfl, rfl, by decide⟩

/-- C6 (counterexample): the trailing unterminated line is NOT discarded in
every delivery mode.  Delivered as a single string, `parse_stream` splits the
whole text and parses the trailing line (one event here); delivered as a chunk
generator it is discarded (no event). -/
theorem c6_string_path_parses_trailing_line :
    (parseStreamText (("\x7b\"data\":1\x7d").toList)).evs.length = 1 ∧
    (parseStreamChunks [("\x7b\"data\":1\x7d").toList]).evs.length = 0 :=
  ⟨rfl, rfl⟩

/-- C7 (counterexample): after a call completing a thinking block whose
remainder ends in a partial tag, the withheld text is the whole remainder
`"ab<t"` — not a strict prefix of either marker — and the scanner retains all
previously emitted text (the whole input, including the emitted `"m"`) in
`content_buffer`. -/
theorem c7_withheld_not_marker_prefix :
    (handleContent scanInit (("<thinking>m</thinking>ab<t").toList)).1.content_buffer.drop
        (handleContent scanInit (("<thinking>m</thinking>ab<t").toList)).1.display_position
      = ("ab<t").toList ∧
    isStrictPrefixOfMarker (("ab<t").toList) = false ∧
    (handleContent scanInit (("<thinking>m</thinking>ab<t").toList)).1.content_buffer
      = ("<thinking>m</thinking>ab<t").toList ∧
    (handleContent scanInit (("<thinking>m</thinking>ab<t").toList)).2.2 = ("m").toList :=
  ⟨rfl, rfl, rfl, rfl⟩

/-- C8 (counterexample): with two thinking spans `"a"` and `"b"`, the
assembled message's thinking is `"ab"` — the concatenation of BOTH spans — not
the last span `"b"` alone (there is no THINKING_START branch; the buffer is
reset only at MESSAGE_START). -/
theorem c8_second_span_concatenates :
    (assembleAll [msgStartEv, thinkStartEv, thinkDeltaEv (("a").toList), thinkStopEv,
        thinkStartEv, thinkDeltaEv (("b").toList), thinkStopEv, msgStopEv]).msgs
      = [⟨.jstr ("assistant".toList), [], some (("ab").toList), .jnull, .jnull, some .jnull⟩] ∧
    (("ab").toList) ≠ (("b").toList) :=
  ⟨rfl, by decide⟩

theorem pySplit_ne_nil (t : List Char) : pySplit t ≠ [] := by
  induction t with
  | nil => simp [pySplit]
  | cons c cs ih =>
    simp only [pySplit]
    split
    · simp
    · split
      · simp
      · simp

theorem lastSeg_concat (A : List (List Char)) (x : List Char) :
    lastSeg (A ++ [x]) = x := by
  induction A with
  | nil => rfl
  | cons a A ih =>
    cases hA : A ++ [x] with
    | nil => exact absurd hA (by simp)
    | cons b B =>
      have : lastSeg (a :: (A ++ [x])) = lastSeg (A ++ [x]) := by
        rw [hA]; rfl
      rw [List.cons_append, this, ih]

theorem dropLast_concat_lastSeg :
    ∀ (l : List (List Char)), l ≠ [] → l.dropLast ++ [lastSeg l] = l := by
  intro l
  induction l with
  | nil => simp
  | cons a l ih =>
    intro _
    cases l with
    | nil => rfl
    | cons b B =>
      have h1 : (a :: b :: B).dropLast = a :: (b :: B).dropLast := rfl
      have h2 : lastSeg (a :: b :: B) = lastSeg (b :: B) := rfl
      rw [h1, h2, List.cons_append, ih (by simp)]

theorem dropLast_append_ne_nil (A B : List (List Char)) (h : B ≠ []) :
    (A ++ B).dropLast = A ++ B.dropLast := by
  induction A with
  | nil => simp
  | cons a A ih =>
    have hne : A ++ B ≠ [] := by
      intro hc
      rcases List.append_eq_nil.mp hc with ⟨_, h2⟩
      exact h h2
    cases hAB : A ++ B with
    | nil => exact absurd hAB hne
    | cons x X =>
      have : (a :: (A ++ B)).dropLast = a :: (A ++ B).dropLast := by
        rw [hAB]; rfl
      rw [List.cons_append, this, ih, List.cons_append]

theorem pySplit_no_nl (t : List Char) (h : noNl t = true) : pySplit t = [t] := by
  induction t with
  | nil => rfl
  | cons c cs ih =>
    simp only [noNl] at h
    split at h
    · exact absurd h (by simp)
    · next hc =>
      simp only [pySplit, if_neg hc, ih h]

theorem noNl_lastSeg_pySplit (t : List Char) : noNl (lastSeg (pySplit t)) = true := by
  induction t with
  | nil => rfl
  | cons c cs ih =>
    simp only [pySplit]
    split
    · cases hP : pySplit cs with
      | nil => exact absurd hP (pySplit_ne_nil cs)
      | cons p ps =>
        have : lastSeg ([] :: p :: ps) = lastSeg (p :: ps) := rfl
        rw [this, ← hP]
        exact ih
    · next hc =>
      cases hP : pySplit cs with
      | nil => exact absurd hP (pySplit_ne_nil cs)
      | cons p ps =>
        cases ps with
        | nil =>
          have hl : lastSeg [c :: p] = c :: p := rfl
          rw [hl]
          have hp : noNl p = true := by
            have := ih
            rw [hP] at this
            exact this
          simp only [noNl, if_neg hc]
          exact hp
        | cons q qs =>
          have h1 : lastSeg ((c :: p) :: q :: qs) = lastSeg (q :: qs) := rfl
          have h2 : lastSeg (p :: q :: qs) = lastSeg (q :: qs) := rfl
          rw [h1]
          have := ih
          rw [hP, h2] at this
          exact this

theorem pySplit_append (x y : List Char) :
    pySplit (x ++ y) = (pySplit x).dropLast ++ pySplit (lastSeg (pySplit x) ++ y) := by
  induction x with
  | nil => rfl
  | cons c cs ih =>
    by_cases hc : c = '\n'
    · subst hc
      have h1 : pySplit ('\n' :: cs ++ y) = [] :: pySplit (cs ++ y) := by
        simp [pySplit]
      have h2 : pySplit ('\n' :: cs) = [] :: pySplit cs := by
        simp [pySplit]
      rw [List.cons_append] at h1 ⊢
      rw [h1, h2, ih]
      cases hP : pySplit cs with
      | nil => exact absurd hP (pySplit_ne_nil cs)
      | cons p ps =>
        have hd : ([] :: p :: ps).dropLast = [] :: (p :: ps).dropLast := rfl
        have hl : lastSeg ([] :: p :: ps) = lastSeg (p :: ps) := rfl
        rw [hd, hl, List.cons_append]
    · cases hP : pySplit cs with
      | nil => exact absurd hP (pySplit_ne_nil cs)
      | cons p ps =>
        cases hQ : pySplit (cs ++ y) with
        | nil => exact absurd hQ (pySplit_ne_nil _)
        | cons q qs =>
          have h1 : pySplit (c :: cs ++ y) = (c :: q) :: qs := by
            rw [List.cons_append]
            simp only [pySplit, if_neg hc, hQ]
          have h2 : pySplit (c :: cs) = (c :: p) :: ps := by
            simp only [pySplit, if_neg hc, hP]
          rw [h1, h2]
          cases ps with
          | nil =>
            have hl : lastSeg [c :: p] = c :: p := rfl
            have hd : ([c :: p] : List (List Char)).dropLast = [] := rfl
            rw [hl, hd, List.nil_append, List.cons_append]
            have h3 : pySplit (c :: (p ++ y)) =
                match pySplit (p ++ y) with
                | [] => [[c]]
                | s :: ss => (c :: s) :: ss := by
              simp only [pySplit, if_neg hc]
            rw [h3]
            have h4 : pySplit (p ++ y) = q :: qs := by
              have := ih
              rw [hP, hQ] at this
              have hl2 : lastSeg [p] = p := rfl
              have hd2 : ([p] : List (List Char)).dropLast = [] := rfl
              rw [hl2, hd2, List.nil_append] at this
              exact this.symm
            rw [h4]
          | cons r rs =>
            have hl : lastSeg ((c :: p) :: r :: rs) = lastSeg (r :: rs) := rfl
            have hl2 : lastSeg (p :: r :: rs) = lastSeg (r :: rs) := rfl
            have hd : ((c :: p) :: r :: rs).dropLast = (c :: p) :: (r :: rs).dropLast := rfl
            have hd2 : (p :: r :: rs).dropLast = p :: (r :: rs).dropLast := rfl
            rw [hl, hd, List.cons_append]
            have := ih
            rw [hP, hQ, hl2, hd2, List.cons_append] at this
            cases this
            rfl

theorem endsNl_exists (t : List Char) (h : endsNl t = true) :
    ∃ t', t = t' ++ ['\n'] := by
  induction t with
  | nil => exact absurd h (by simp [endsNl])
  | cons c cs ih =>
    cases cs with
    | nil =>
      refine ⟨[], ?_⟩
      have : c = '\n' := by
        simpa [endsNl] using h
      rw [this]; rfl
    | cons c2 cs2 =>
      have h2 : endsNl (c2 :: cs2) = true := h
      obtain ⟨t', ht⟩ := ih h2
      exact ⟨c :: t', by rw [List.cons_append, ← ht]⟩

theorem pySplit_snoc_nl (g : List Char) (h : noNl g = true) :
    pySplit (g ++ ['\n']) = [g, []] := by
  induction g with
  | nil => rfl
  | cons c cs ih =>
    simp only [noNl] at h
    split at h
    · exact absurd h (by simp)
    · next hc =>
      rw [List.cons_append]
      simp only [pySplit, if_neg hc, ih h]

theorem lastSeg_endsNl (t : List Char) (h : endsNl t = true) :
    lastSeg (pySplit t) = [] := by
  obtain ⟨t', ht⟩ := endsNl_exists t h
  subst ht
  rw [pySplit_append, pySplit_snoc_nl _ (noNl_lastSeg_pySplit t')]
  have : (pySplit t').dropLast ++ [lastSeg (pySplit t'), []]
      = ((pySplit t').dropLast ++ [lastSeg (pySplit t')]) ++ [([] : List Char)] := by
    simp
  rw [this, lastSeg_concat]

theorem parseJsonLine_nil (b : Bool) : parseJsonLine b [] = (b, .skip) := rfl

theorem runLines_append (st : Bool) (l1 l2 : List (List Char)) :
    runLines st (l1 ++ l2) = (runLines st l1).seq (fun b => runLines b l2) := by
  induction l1 generalizing st with
  | nil =>
    simp only [List.nil_append, runLines, RunOut.seq, if_neg (by simp : ¬(false = true))]
  | cons l ls ih =>
    rw [List.cons_append]
    simp only [runLines]
    cases hp : parseJsonLine st l with
    | mk flag1 out =>
      cases out with
      | exn => simp [RunOut.seq]
      | skip => exact ih flag1
      | ev e =>
        dsimp only
        rw [ih flag1]
        cases hr : (runLines flag1 ls).raised <;>
          simp [RunOut.seq, hr]

theorem runOut_seq_skipline (r : RunOut) :
    r.seq (fun b => ⟨b, [], false⟩) = r := by
  simp only [RunOut.seq]
  split
  · rfl
  · next h =>
    have : r.raised = false := by
      cases hr : r.raised
      · rfl
      · exact absurd hr h
    cases r
    simp_all

theorem runLines_append_blank (st : Bool) (L : List (List Char)) :
    runLines st (L ++ [[]]) = runLines st L := by
  rw [runLines_append]
  have : (fun b => runLines b [[]]) = fun b => (⟨b, [], false⟩ : RunOut) := by
    funext b
    simp [runLines, parseJsonLine_nil]
  rw [this, runOut_seq_skipline]

theorem feedChunks_eq_runLines (cs : List (List Char)) :
    ∀ (st : Bool) (buf : List Char), noNl buf = true →
    feedChunks st buf cs = runLines st ((pySplit (buf ++ cs.flatten)).dropLast) := by
  induction cs with
  | nil =>
    intro st buf h
    rw [List.flatten_nil, List.append_nil, pySplit_no_nl buf h]
    rfl
  | cons c cs ih =>
    intro st buf h
    simp only [feedChunks]
    have hflat : (c :: cs).flatten = c ++ cs.flatten := rfl
    rw [hflat, ← List.append_assoc]
    by_cases he : endsNl (buf ++ c) = true
    · rw [if_pos he, if_pos he]
      have hk : (fun b => feedChunks b [] cs)
          = fun b => runLines b ((pySplit cs.flatten).dropLast) := by
        funext b
        exact ih b [] rfl
      rw [hk]
      have hlast : lastSeg (pySplit (buf ++ c)) = [] := lastSeg_endsNl _ he
      have hsplit : (pySplit (buf ++ c)).dropLast ++ [([] : List Char)] = pySplit (buf ++ c) := by
        have := dropLast_concat_lastSeg (pySplit (buf ++ c)) (pySplit_ne_nil _)
        rw [hlast] at this
        exact this
      have h1 : runLines st (pySplit (buf ++ c))
          = runLines st ((pySplit (buf ++ c)).dropLast) := by
        conv_lhs => rw [← hsplit]
        rw [runLines_append_blank]
      rw [h1]
      have h2 : pySplit (buf ++ c ++ cs.flatten)
          = (pySplit (buf ++ c)).dropLast ++ pySplit cs.flatten := by
        rw [pySplit_append, hlast, List.nil_append]
      rw [h2, dropLast_append_ne_nil _ _ (pySplit_ne_nil _), runLines_append]
    · rw [if_neg he, if_neg he]
      have hg : noNl (lastSeg (pySplit (buf ++ c))) = true := noNl_lastSeg_pySplit _
      have hk : (fun b => feedChunks b (lastSeg (pySplit (buf ++ c))) cs)
          = fun b => runLines b ((pySplit (lastSeg (pySplit (buf ++ c)) ++ cs.flatten)).dropLast) := by
        funext b
        exact ih b _ hg
      rw [hk]
      have h2 : pySplit (buf ++ c ++ cs.flatten)
          = (pySplit (buf ++ c)).dropLast ++ pySplit (lastSeg (pySplit (buf ++ c)) ++ cs.flatten) :=
        pySplit_append _ _
      rw [h2, dropLast_append_ne_nil _ _ (pySplit_ne_nil _), runLines_append]

/-- C1: chunking invariance of the decoder.  For a newline-terminated
line-delimited stream text, `parse_stream` over any two chunkings of the text
yields identical outcomes (same events in order, same final classifier flag,
same abort behaviour), equal to decoding the text delivered in one piece, and
folding either event sequence through `MessageAssembler` yields the identical
result. -/
theorem c1_chunking_invariance (text : List Char) (chunks1 chunks2 : List (List Char))
    (h1 : chunks1.flatten = text) (h2 : chunks2.flatten = text)
    (hnl : endsNl text = true) :
    parseStreamChunks chunks1 = parseStreamChunks chunks2 ∧
    parseStreamChunks chunks1 = parseStreamText text ∧
    assembleAll (parseStreamChunks chunks1).evs = assembleAll (parseStreamText text).evs := by
  have key : ∀ (chunks : List (List Char)), chunks.flatten = text →
      parseStreamChunks chunks = runLines false ((pySplit text).dropLast) := by
    intro chunks hc
    unfold parseStreamChunks
    rw [feedChunks_eq_runLines chunks false [] rfl, List.nil_append, hc]
  have htext : parseStreamText text = runLines false ((pySplit text).dropLast) := by
    unfold parseStreamText
    have hlast : lastSeg (pySplit text) = [] := lastSeg_endsNl _ hnl
    have hsplit : (pySplit text).dropLast ++ [([] : List Char)] = pySplit text := by
      have hcat := dropLast_concat_lastSeg (pySplit text) (pySplit_ne_nil _)
      rw [hlast] at hcat
      exact hcat
    conv_lhs => rw [← hsplit]
    rw [runLines_append_blank]
  refine ⟨?_, ?_, ?_⟩
  · rw [key chunks1 h1, key chunks2 h2]
  · rw [key chunks1 h1, htext]
  · rw [key chunks1 h1, htext]

theorem c1_chunking_invariance_witness :
    parseStreamChunks [("\x7b\"da").toList, ("ta\":1\x7d\n").toList]
        = parseStreamChunks [("\x7b\"data\":1\x7d\n").toList] ∧
    parseStreamChunks [("\x7b\"da").toList, ("ta\":1\x7d\n").toList]
        = parseStreamText (("\x7b\"data\":1\x7d\n").toList) ∧
    assembleAll (parseStreamChunks [("\x7b\"da").toList, ("ta\":1\x7d\n").toList]).evs
        = assembleAll (parseStreamText (("\x7b\"data\":1\x7d\n").toList)).evs :=
  c1_chunking_invariance (("\x7b\"data\":1\x7d\n").toList)
    [("\x7b\"da").toList, ("ta\":1\x7d\n").toList]
    [("\x7b\"data\":1\x7d\n").toList] (by rfl) (by rfl) (by rfl)

/-- C6 amended: delivered as a chunk generator, `parse_stream` parses exactly
the newline-terminated segments of the concatenated input, so a trailing
unterminated line is discarded on that path; delivered as a single string or
bytes, the whole split is parsed and the trailing line is NOT discarded (see
the counterexample). -/
theorem c6_generator_discards_trailing (chunks : List (List Char)) :
    parseStreamChunks chunks = runLines false ((pySplit chunks.flatten).dropLast) := by
  unfold parseStreamChunks
  rw [feedChunks_eq_runLines chunks false [] rfl, List.nil_append]

theorem stContent_processEvent (s : AsmState) (e : StreamEvent) :
    stContent (processEvent s e).1 = stContent s ∨
    ((e.type = .content_block_stop ∨ e.type = .tool_use_stop) ∧
      ∃ b, stContent (processEvent s e).1 = stContent s ++ [b]) ∨
    (e.type = .message_start ∧ stContent (processEvent s e).1 = []) := by
  obtain ⟨et, ed, raw⟩ := e
  cases et with
  | message_start =>
    cases hg : pyGet ed roleKey (.jstr ("assistant".toList)) with
    | exn =>
      left
      simp only [processEvent]
      rw [hg]
    | ok role =>
      cases hg2 : pyGet ed modelKey .jnull with
      | exn =>
        left
        simp only [processEvent]
        rw [hg, hg2]
      | ok model =>
        right; right
        refine ⟨rfl, ?_⟩
        simp only [processEvent]
        rw [hg, hg2]
        simp [stContent]
  | thinking_delta =>
    left
    cases hg : pyGet ed deltaKey (.jobj []) with
    | exn => simp [processEvent, hg]
    | ok d =>
      cases hg2 : pyGet d textKey (.jstr []) with
      | exn => simp [processEvent, hg, hg2]
      | ok t => simp [processEvent, hg, hg2, stContent]
  | thinking_stop =>
    left
    cases hm : s.current_message with
    | none => simp [processEvent, hm]
    | some m =>
      by_cases hb : s.thinking_buffer.isEmpty
      · simp [processEvent, hm, hb]
      · cases hj : pyJoin s.thinking_buffer with
        | exn => simp [processEvent, hm, hb, hj]
        | ok txt => simp [processEvent, hm, hb, hj, stContent]
  | content_block_start => left; simp [processEvent, stContent]
  | content_block_delta =>
    left
    cases hc : s.current_content with
    | none => simp [processEvent, hc]
    | some cur =>
      cases hg : pyGet ed deltaKey (.jobj []) with
      | exn => simp [processEvent, hc, hg]
      | ok d =>
        cases hg2 : pyGet d textKey (.jstr []) with
        | exn => simp [processEvent, hc, hg, hg2]
        | ok t =>
          cases t <;> simp [processEvent, hc, hg, hg2, stContent]
  | content_block_stop =>
    by_cases htool : s.current_block_type = some BlockType.tool_use ∧ s.current_tool_id.isSome
    · obtain ⟨hbt, hct⟩ := htool
      obtain ⟨tid, hct⟩ : ∃ tid, s.current_tool_id = some tid :=
        Option.isSome_iff_exists.mp hct
      cases hdg : dictGet s.tool_buffer tid with
      | none =>
        left
        simp [processEvent, hbt, hct, finalizeTool, hdg, stContent]
      | some acc =>
        cases hm : s.current_message with
        | none =>
          left
          simp [processEvent, hbt, hct, finalizeTool, hdg, hm, stContent]
        | some m =>
          right; left
          refine ⟨Or.inl rfl, ?_⟩
          refine ⟨.toolBlock acc.tid acc.name
            (if acc.input = [] then .rawStr acc.input
             else match jloads acc.input with
               | some j => .parsed j
               | none => .rawStr acc.input), ?_⟩
          simp [processEvent, hbt, hct, finalizeTool, hdg, hm, stContent]
    · have hsplit : s.current_block_type ≠ some BlockType.tool_use ∨ s.current_tool_id = none := by
        by_cases h1 : s.current_block_type = some BlockType.tool_use
        · right
          cases hct : s.current_tool_id with
          | none => rfl
          | some tid => exact absurd ⟨h1, by simp [hct]⟩ htool
        · left; exact h1
      cases hm : s.current_message with
      | none =>
        left
        rcases hsplit with h1 | h1
        · cases hbt : s.current_block_type with
          | none => simp [processEvent, hbt, hm, stContent]
          | some bt =>
            cases bt with
            | text => simp [processEvent, hbt, hm, stContent]
            | tool_use => exact absurd hbt h1
        · cases hbt : s.current_block_type with
          | none => simp [processEvent, hbt, h1, hm, stContent]
          | some bt =>
            cases bt with
            | text => simp [processEvent, hbt, h1, hm, stContent]
            | tool_use => simp [processEvent, hbt, h1, hm, stContent]
      | some m =>
        cases hc : s.current_content with
        | none =>
          left
          rcases hsplit with h1 | h1
          · cases hbt : s.current_block_type with
            | none => simp [processEvent, hbt, hm, hc, stContent]
            | some bt =>
              cases bt with
              | text => simp [processEvent, hbt, hm, hc, stContent]
              | tool_use => exact absurd hbt h1
          · cases hbt : s.current_block_type with
            | none => simp [processEvent, hbt, h1, hm, hc, stContent]
            | some bt =>
              cases bt with
              | text => simp [processEvent, hbt, h1, hm, hc, stContent]
              | tool_use => simp [processEvent, hbt, h1, hm, hc, stContent]
        | some cur =>
          right; left
          refine ⟨Or.inl rfl, .textBlock cur, ?_⟩
          rcases hsplit with h1 | h1
          · cases hbt : s.current_block_type with
            | none => simp [processEvent, hbt, hm, hc, stContent]
            | some bt =>
              cases bt with
              | text => simp [processEvent, hbt, hm, hc, stContent]
              | tool_use => exact absurd hbt h1
          · cases hbt : s.current_block_type with
            | none => simp [processEvent, hbt, h1, hm, hc, stContent]
            | some bt =>
              cases bt with
              | text => simp [processEvent, hbt, h1, hm, hc, stContent]
              | tool_use => simp [processEvent, hbt, h1, hm, hc, stContent]
  | tool_use_start =>
    left
    cases hg : pyGet ed idKey .jnull with
    | exn => simp [processEvent, hg, stContent]
    | ok idv =>
      cases hg2 : pyGet ed nameKey .jnull with
      | exn => simp [processEvent, hg, hg2, stContent]
      | ok nv =>
        by_cases hu : unhashable idv = true
        · simp [processEvent, hg, hg2, hu, stContent]
        · simp [processEvent, hg, hg2, hu, stContent]
  | tool_use_delta =>
    left
    cases hct : s.current_tool_id with
    | none => simp [processEvent, hct]
    | some tid =>
      by_cases hmem : dictMem s.tool_buffer tid = true
      · cases hg : pyGet ed deltaKey (.jobj []) with
        | exn => simp [processEvent, hct, hmem, hg]
        | ok d =>
          cases hg2 : pyGet d inputKey (.jstr []) with
          | exn => simp [processEvent, hct, hmem, hg, hg2]
          | ok di =>
            cases di <;> simp [processEvent, hct, hmem, hg, hg2, stContent]
      · simp [processEvent, hct, hmem]
  | tool_use_stop =>
    cases hct : s.current_tool_id with
    | none => left; simp [processEvent, hct]
    | some tid =>
      cases hdg : dictGet s.tool_buffer tid with
      | none =>
        left
        simp [processEvent, hct, finalizeTool, hdg, stContent]
      | some acc =>
        cases hm : s.current_message with
        | none =>
          left
          simp [processEvent, hct, finalizeTool, hdg, hm, stContent]
        | some m =>
          right; left
          refine ⟨Or.inr rfl, ?_⟩
          refine ⟨.toolBlock acc.tid acc.name
            (if acc.input = [] then .rawStr acc.input
             else match jloads acc.input with
               | some j => .parsed j
               | none => .rawStr acc.input), ?_⟩
          simp [processEvent, hct, finalizeTool, hdg, hm, stContent]
  | message_stop =>
    left
    cases hm : s.current_message with
    | none => simp [processEvent, hm]
    | some m =>
      cases hg : pyGet ed usageKey .jnull with
      | exn => simp [processEvent, hm, hg]
      | ok u =>
        cases hg2 : pyGet ed stopReasonKey .jnull with
        | exn => simp [processEvent, hm, hg, hg2]
        | ok sr => simp [processEvent, hm, hg, hg2, stContent]
  | message_delta => left; simp [processEvent]
  | thinking_start => left; simp [processEvent]
  | tool_result => left; simp [processEvent]
  | error => left; simp [processEvent]
  | ping => left; simp [processEvent]
  | unknown => left; simp [processEvent]

/-- C9: no-partial-exposure ordering invariant.  A content block is appended
to the message's content list only when a Stop event (`CONTENT_BLOCK_STOP` or
`TOOL_USE_STOP`) is processed — at most one block, at the tail, so blocks
appear in the order of their Stop events; `MESSAGE_START` at most resets the
list for a fresh message; every other event leaves the content list
unchanged. -/
theorem c9_append_only_at_stop (s : AsmState) (e : StreamEvent) :
    ((e.type = .content_block_stop ∨ e.type = .tool_use_stop) →
      stContent (processEvent s e).1 = stContent s ∨
        ∃ b, stContent (processEvent s e).1 = stContent s ++ [b]) ∧
    (e.type = .message_start →
      stContent (processEvent s e).1 = stContent s ∨ stContent (processEvent s e).1 = []) ∧
    (e.type ≠ .content_block_stop → e.type ≠ .tool_use_stop → e.type ≠ .message_start →
      stContent (processEvent s e).1 = stContent s) := by
  have h := stContent_processEvent s e
  refine ⟨?_, ?_, ?_⟩
  · intro h1
    rcases h with h | ⟨_, hb⟩ | ⟨hms, _⟩
    · exact Or.inl h
    · exact Or.inr hb
    · rcases h1 with h1 | h1 <;> rw [h1] at hms <;> exact absurd hms (by decide)
  · intro h2
    rcases h with h | ⟨hstop, _⟩ | ⟨_, hnil⟩
    · exact Or.inl h
    · rcases hstop with h1 | h1 <;> rw [h2] at h1 <;> exact absurd h1 (by decide)
    · exact Or.inr hnil
  · intro hn1 hn2 hn3
    rcases h with h | ⟨hstop, _⟩ | ⟨hms, _⟩
    · exact h
    · rcases hstop with h1 | h1
      · exact absurd h1 hn1
      · exact absurd h1 hn2
    · exact absurd hms hn3

theorem c9_append_only_at_stop_witness :
    (stContent (processEvent initAsm cbStopEv).1 = stContent initAsm ∨
      ∃ b, stContent (processEvent initAsm cbStopEv).1 = stContent initAsm ++ [b]) ∧
    stContent (processEvent initAsm (thinkDeltaEv (("x").toList))).1 = stContent initAsm :=
  ⟨(c9_append_only_at_stop initAsm cbStopEv).1 (Or.inl rfl),
   (c9_append_only_at_stop initAsm (thinkDeltaEv (("x").toList))).2.2
     (by decide) (by decide) (by decide)⟩

theorem processEvent_out (s : AsmState) (e : StreamEvent) :
    (processEvent s e).2 = .ret none ∨ (processEvent s e).2 = .exn ∨
      (e.type = .message_stop ∧ s.current_message.isSome = true) := by
  obtain ⟨et, ed, raw⟩ := e
  cases et with
  | message_start =>
    cases hg : pyGet ed roleKey (.jstr ("assistant".toList)) with
    | exn => right; left; simp only [processEvent]; rw [hg]
    | ok role =>
      cases hg2 : pyGet ed modelKey .jnull with
      | exn => right; left; simp only [processEvent]; rw [hg, hg2]
      | ok model => left; simp only [processEvent]; rw [hg, hg2]
  | thinking_delta =>
    cases hg : pyGet ed deltaKey (.jobj []) with
    | exn => right; left; simp [processEvent, hg]
    | ok d =>
      cases hg2 : pyGet d textKey (.jstr []) with
      | exn => right; left; simp [processEvent, hg, hg2]
      | ok t => left; simp [processEvent, hg, hg2]
  | thinking_stop =>
    cases hm : s.current_message with
    | none => left; simp [processEvent, hm]
    | some m =>
      by_cases hb : s.thinking_buffer.isEmpty
      · left; simp [processEvent, hm, hb]
      · cases hj : pyJoin s.thinking_buffer with
        | exn => right; left; simp [processEvent, hm, hb, hj]
        | ok txt => left; simp [processEvent, hm, hb, hj]
  | content_block_start => left; simp [processEvent]
  | content_block_delta =>
    cases hc : s.current_content with
    | none => left; simp [processEvent, hc]
    | some cur =>
      cases hg : pyGet ed deltaKey (.jobj []) with
      | exn => right; left; simp [processEvent, hc, hg]
      | ok d =>
        cases hg2 : pyGet d textKey (.jstr []) with
        | exn => right; left; simp [processEvent, hc, hg, hg2]
        | ok t =>
          cases t with
          | jstr txt => left; simp [processEvent, hc, hg, hg2]
          | jnull => right; left; simp [processEvent, hc, hg, hg2]
          | jbool b => right; left; simp [processEvent, hc, hg, hg2]
          | jnum n => right; left; simp [processEvent, hc, hg, hg2]
          | jarr xs => right; left; simp [processEvent, hc, hg, hg2]
          | jobj f => right; left; simp [processEvent, hc, hg, hg2]
  | content_block_stop =>
    left
    simp only [processEvent]
    split
    · rfl
    · split
      · rfl
      · rfl
  | tool_use_start =>
    cases hg : pyGet ed idKey .jnull with
    | exn => right; left; simp [processEvent, hg]
    | ok idv =>
      cases hg2 : pyGet ed nameKey .jnull with
      | exn => right; left; simp [processEvent, hg, hg2]
      | ok nv =>
        by_cases hu : unhashable idv = true
        · right; left; simp [processEvent, hg, hg2, hu]
        · left; simp [processEvent, hg, hg2, hu]
  | tool_use_delta =>
    cases hct : s.current_tool_id with
    | none => left; simp [processEvent, hct]
    | some tid =>
      by_cases hmem : dictMem s.tool_buffer tid = true
      · cases hg : pyGet ed deltaKey (.jobj []) with
        | exn => right; left; simp [processEvent, hct, hmem, hg]
        | ok d =>
          cases hg2 : pyGet d inputKey (.jstr []) with
          | exn => right; left; simp [processEvent, hct, hmem, hg, hg2]
          | ok di =>
            cases di with
            | jstr txt => left; simp [processEvent, hct, hmem, hg, hg2]
            | jnull => right; left; simp [processEvent, hct, hmem, hg, hg2]
            | jbool b => right; left; simp [processEvent, hct, hmem, hg, hg2]
            | jnum n => right; left; simp [processEvent, hct, hmem, hg, hg2]
            | jarr xs => right; left; simp [processEvent, hct, hmem, hg, hg2]
            | jobj f => right; left; simp [processEvent, hct, hmem, hg, hg2]
      · left; simp [processEvent, hct, hmem]
  | tool_use_stop =>
    left
    simp only [processEvent]
    split
    · rfl
    · rfl
  | message_stop =>
    cases hm : s.current_message with
    | none => left; simp [processEvent, hm]
    | some m0 => right; right; exact ⟨rfl, by simp [hm]⟩
  | message_delta => left; simp [processEvent]
  | thinking_start => left; simp [processEvent]
  | tool_result => left; simp [processEvent]
  | error => left; simp [processEvent]
  | ping => left; simp [processEvent]
  | unknown => left; simp [processEvent]

theorem currentMessage_none_preserved (s : AsmState) (e : StreamEvent)
    (hm : s.current_message = none) (hne : e.type ≠ .message_start) :
    (processEvent s e).1.current_message = none := by
  obtain ⟨et, ed, raw⟩ := e
  cases et with
  | message_start => exact absurd rfl hne
  | thinking_delta =>
    cases hg : pyGet ed deltaKey (.jobj []) with
    | exn => simp [processEvent, hg, hm]
    | ok d =>
      cases hg2 : pyGet d textKey (.jstr []) with
      | exn => simp [processEvent, hg, hg2, hm]
      | ok t => simp [processEvent, hg, hg2, hm]
  | thinking_stop => simp [processEvent, hm]
  | content_block_start => simp [processEvent, hm]
  | content_block_delta =>
    cases hc : s.current_content with
    | none => simp [processEvent, hc, hm]
    | some cur =>
      cases hg : pyGet ed deltaKey (.jobj []) with
      | exn => simp [processEvent, hc, hg, hm]
      | ok d =>
        cases hg2 : pyGet d textKey (.jstr []) with
        | exn => simp [processEvent, hc, hg, hg2, hm]
        | ok t => cases t <;> simp [processEvent, hc, hg, hg2, hm]
  | content_block_stop =>
    cases hbt : s.current_block_type with
    | none => simp [processEvent, hbt, hm]
    | some bt =>
      cases bt with
      | text => simp [processEvent, hbt, hm]
      | tool_use =>
        cases hct : s.current_tool_id with
        | none => simp [processEvent, hbt, hct, hm]
        | some tid =>
          cases hdg : dictGet s.tool_buffer tid with
          | none => simp [processEvent, hbt, hct, finalizeTool, hdg, hm]
          | some acc => simp [processEvent, hbt, hct, finalizeTool, hdg, hm]
  | tool_use_start =>
    cases hg : pyGet ed idKey .jnull with
    | exn => simp [processEvent, hg, hm]
    | ok idv =>
      cases hg2 : pyGet ed nameKey .jnull with
      | exn => simp [processEvent, hg, hg2, hm]
      | ok nv =>
        by_cases hu : unhashable idv = true
        · simp [processEvent, hg, hg2, hu, hm]
        · simp [processEvent, hg, hg2, hu, hm]
  | tool_use_delta =>
    cases hct : s.current_tool_id with
    | none => simp [processEvent, hct, hm]
    | some tid =>
      by_cases hmem : dictMem s.tool_buffer tid = true
      · cases hg : pyGet ed deltaKey (.jobj []) with
        | exn => simp [processEvent, hct, hmem, hg, hm]
        | ok d =>
          cases hg2 : pyGet d inputKey (.jstr []) with
          | exn => simp [processEvent, hct, hmem, hg, hg2, hm]
          | ok di => cases di <;> simp [processEvent, hct, hmem, hg, hg2, hm]
      · simp [processEvent, hct, hmem, hm]
  | tool_use_stop =>
    cases hct : s.current_tool_id with
    | none => simp [processEvent, hct, hm]
    | some tid =>
      cases hdg : dictGet s.tool_buffer tid with
      | none => simp [processEvent, hct, finalizeTool, hdg, hm]
      | some acc => simp [processEvent, hct, finalizeTool, hdg, hm]
  | message_stop => simp [processEvent, hm]
  | message_delta => simp [processEvent, hm]
  | thinking_start => simp [processEvent, hm]
  | tool_result => simp [processEvent, hm]
  | error => simp [processEvent, hm]
  | ping => simp [processEvent, hm]
  | unknown => simp [processEvent, hm]

/-- C10: a message is returned by `process_event` only on a MESSAGE_STOP whose
state already holds a message (set only by MESSAGE_START); a MESSAGE_STOP with
no message under construction returns `None` and changes nothing; and from a
state with no message, only MESSAGE_START can make one appear. -/
theorem c10_message_returned_only_on_stop (s : AsmState) (e : StreamEvent) :
    (∀ s1 m, processEvent s e = (s1, .ret (some m)) →
      e.type = .message_stop ∧ s.current_message.isSome = true) ∧
    (e.type = .message_stop → s.current_message = none →
      processEvent s e = (s, .ret none)) ∧
    (s.current_message = none → (processEvent s e).1.current_message.isSome = true →
      e.type = .message_start) := by
  refine ⟨?_, ?_, ?_⟩
  · intro s1 m h
    rcases processEvent_out s e with ho | ho | ho
    · rw [h] at ho; exact absurd ho (by simp)
    · rw [h] at ho; exact absurd ho (by simp)
    · exact ho
  · intro ht hm
    obtain ⟨et, ed, raw⟩ := e
    have het : et = .message_stop := ht
    subst het
    simp [processEvent, hm]
  · intro hm hs
    by_cases hne : e.type = .message_start
    · exact hne
    · have := currentMessage_none_preserved s e hm hne
      rw [this] at hs
      exact absurd hs (by simp)

theorem c10_message_returned_only_on_stop_witness :
    processEvent initAsm msgStopEv = (initAsm, .ret none) :=
  (c10_message_returned_only_on_stop initAsm msgStopEv).2.1 rfl rfl

theorem classifyDelta_flag (flag : Bool) (line : List Char) (ed : JValue) :
    (classifyDelta flag line ed).1 = flag := by
  unfold classifyDelta
  repeat' split
  all_goals rfl

theorem classifyStart_flag (flag : Bool) (line : List Char) (ed : JValue) :
    classifyStart flag line ed = (true, .ev ⟨.thinking_start, .jobj [], line⟩) ∨
    (classifyStart flag line ed).1 = flag := by
  unfold classifyStart
  repeat' split
  all_goals first
    | (left; rfl)
    | (right; rfl)

theorem classifyEvent_flag (flag : Bool) (line : List Char) (ed : JValue) :
    (classifyEvent flag line ed).1 = flag ∨
    classifyEvent flag line ed = (true, .ev ⟨.thinking_start, .jobj [], line⟩) ∨
    (flag = true ∧ classifyEvent flag line ed
        = (false, .ev ⟨.thinking_stop, .jobj [], line⟩)) := by
  unfold classifyEvent
  repeat' split
  all_goals first
    | (left; rfl)
    | (left; apply classifyDelta_flag)
    | (rcases classifyStart_flag flag line ed with h | h
       · right; left; exact h
       · left; exact h)
    | (right; right; constructor
       · assumption
       · rfl)

theorem classifyData_flag (flag : Bool) (line : List Char) (d : JValue) :
    (classifyData flag line d).1 = flag ∨
    classifyData flag line d = (true, .ev ⟨.thinking_start, .jobj [], line⟩) ∨
    (flag = true ∧ classifyData flag line d
        = (false, .ev ⟨.thinking_stop, .jobj [], line⟩)) := by
  have hdisp : (dispatchTop flag line d).1 = flag ∨
      dispatchTop flag line d = (true, .ev ⟨.thinking_start, .jobj [], line⟩) ∨
      (flag = true ∧ dispatchTop flag line d
          = (false, .ev ⟨.thinking_stop, .jobj [], line⟩)) := by
    unfold dispatchTop
    repeat' split
    all_goals first
      | (left; rfl)
      | (rcases classifyEvent_flag flag line _ with h | h | h
         · left; exact h
         · right; left; exact h
         · right; right; exact h)
  cases d with
  | jstr s => left; rfl
  | jnull => exact hdisp
  | jbool b => exact hdisp
  | jnum n => exact hdisp
  | jarr xs => exact hdisp
  | jobj f => exact hdisp

theorem parseJsonLine_flag (flag : Bool) (line : List Char) :
    (parseJsonLine flag line).1 = flag ∨
    parseJsonLine flag line = (true, .ev ⟨.thinking_start, .jobj [], line⟩) ∨
    (flag = true ∧ parseJsonLine flag line
        = (false, .ev ⟨.thinking_stop, .jobj [], line⟩)) := by
  unfold parseJsonLine
  split
  · left; rfl
  · split
    · left; rfl
    · exact classifyData_flag flag line _

theorem jget_keyMem (f : List (List Char × JValue)) (k : List Char) (v : JValue)
    (h : jget f k = some v) : keyMem f k = true := by
  induction f with
  | nil => simp [jget] at h
  | cons p f ih =>
    by_cases hp : (p.1 == k) = true
    · simp only [keyMem, List.any_cons, hp, Bool.true_or]
    · have hpf : (p.1 == k) = false := by
        simpa using hp
      have h2 : jget f k = some v := by
        simpa [jget, List.find?_cons, hp] using h
      simp only [keyMem, List.any_cons, hpf, Bool.false_or]
      exact ih h2

theorem keyMem_exists_jget (f : List (List Char × JValue)) (k : List Char)
    (h : keyMem f k = true) : ∃ v, jget f k = some v := by
  induction f with
  | nil => simp [keyMem] at h
  | cons p f ih =>
    by_cases hp : (p.1 == k) = true
    · exact ⟨p.2, by simp [jget, List.find?_cons, hp]⟩
    · have h2 : keyMem f k = true := by
        simpa [keyMem, List.any_cons, hp] using h
      obtain ⟨v, hv⟩ := ih h2
      refine ⟨v, ?_⟩
      simpa [jget, List.find?_cons, hp] using hv

/-- C5: reasoning-block disambiguation.  (1) Across all inputs, the one-bit
`in_reasoning_block` flag changes only by: setting to `true` while emitting
ThinkingStart (the reasoning `contentBlockStart` branch), or clearing to
`false` while emitting ThinkingStop; every other call leaves it unchanged.
(2) A line whose event object reaches the `contentBlockStop` branch is
classified ThinkingStop exactly when the flag is set (ContentBlockStop
otherwise), and the flag is `false` afterwards.  (3) A `contentBlockStart`
line whose `start` payload contains `reasoningContent` sets the flag and
emits ThinkingStart. -/
theorem c5_reasoning_flag (flag : Bool) (line : List Char) :
    ((parseJsonLine flag line).1 = flag ∨
      parseJsonLine flag line = (true, .ev ⟨.thinking_start, .jobj [], line⟩) ∨
      (flag = true ∧ parseJsonLine flag line
          = (false, .ev ⟨.thinking_stop, .jobj [], line⟩))) ∧
    (∀ d, pyStripEmpty line = false → jloads line = some d → isStopShape d = true →
      (parseJsonLine flag line).1 = false ∧
      (parseJsonLine flag line).2.eventType?
        = some (if flag then EventType.thinking_stop else EventType.content_block_stop)) ∧
    (∀ d, pyStripEmpty line = false → jloads line = some d →
      isThinkingStartShape d = true →
      parseJsonLine flag line = (true, .ev ⟨.thinking_start, .jobj [], line⟩)) := by
  refine ⟨parseJsonLine_flag flag line, ?_, ?_⟩
  · intro d hstrip hload hshape
    cases d with
    | jnull => simp [isStopShape, jobjGet] at hshape
    | jbool b => simp [isStopShape, jobjGet] at hshape
    | jnum n => simp [isStopShape, jobjGet] at hshape
    | jstr s2 => simp [isStopShape, jobjGet] at hshape
    | jarr xs => simp [isStopShape, jobjGet] at hshape
    | jobj df =>
      cases hev : jget df eventKey with
      | none => simp [isStopShape, jobjGet, hev] at hshape
      | some v =>
        cases v with
        | jnull => simp [isStopShape, jobjGet, hev] at hshape
        | jbool b => simp [isStopShape, jobjGet, hev] at hshape
        | jnum n => simp [isStopShape, jobjGet, hev] at hshape
        | jstr s2 => simp [isStopShape, jobjGet, hev] at hshape
        | jarr xs => simp [isStopShape, jobjGet, hev] at hshape
        | jobj efs =>
          simp only [isStopShape, jobjGet, hev, Bool.and_eq_true,
            Bool.not_eq_true'] at hshape
          obtain ⟨⟨⟨h1, h2⟩, h3⟩, h4⟩ := hshape
          obtain ⟨sd, hsd⟩ := keyMem_exists_jget efs cbStopKey h4
          have hevmem : keyMem df eventKey = true := jget_keyMem df eventKey _ hev
          have hstep : parseJsonLine flag line
              = classifyEvent flag line (.jobj efs) := by
            unfold parseJsonLine
            rw [hload]
            simp [hstrip, classifyData, dispatchTop, pyIn, hevmem, pyIndex, hev]
          rw [hstep]
          unfold classifyEvent
          simp only [pyIn, h1, h2, h3, h4, pyIndex, hsd]
          cases flag with
          | true => exact ⟨rfl, rfl⟩
          | false => exact ⟨rfl, rfl⟩
  · intro d hstrip hload hshape
    cases d with
    | jnull => simp [isThinkingStartShape, jobjGet] at hshape
    | jbool b => simp [isThinkingStartShape, jobjGet] at hshape
    | jnum n => simp [isThinkingStartShape, jobjGet] at hshape
    | jstr s2 => simp [isThinkingStartShape, jobjGet] at hshape
    | jarr xs => simp [isThinkingStartShape, jobjGet] at hshape
    | jobj df =>
      cases hev : jget df eventKey with
      | none => simp [isThinkingStartShape, jobjGet, hev] at hshape
      | some v =>
        cases v with
        | jnull => simp [isThinkingStartShape, jobjGet, hev] at hshape
        | jbool b => simp [isThinkingStartShape, jobjGet, hev] at hshape
        | jnum n => simp [isThinkingStartShape, jobjGet, hev] at hshape
        | jstr s2 => simp [isThinkingStartShape, jobjGet, hev] at hshape
        | jarr xs => simp [isThinkingStartShape, jobjGet, hev] at hshape
        | jobj efs =>
          cases hbs : jget efs cbStartKey with
          | none => simp [isThinkingStartShape, jobjGet, hev, hbs] at hshape
          | some bv =>
            cases bv with
            | jnull => simp [isThinkingStartShape, jobjGet, hev, hbs] at hshape
            | jbool b => simp [isThinkingStartShape, jobjGet, hev, hbs] at hshape
            | jnum n => simp [isThinkingStartShape, jobjGet, hev, hbs] at hshape
            | jstr s2 => simp [isThinkingStartShape, jobjGet, hev, hbs] at hshape
            | jarr xs => simp [isThinkingStartShape, jobjGet, hev, hbs] at hshape
            | jobj bfs =>
              cases hss : jget bfs startKey with
              | none => simp [isThinkingStartShape, jobjGet, hev, hbs, hss] at hshape
              | some sv =>
                cases sv with
                | jnull => simp [isThinkingStartShape, jobjGet, hev, hbs, hss] at hshape
                | jbool b => simp [isThinkingStartShape, jobjGet, hev, hbs, hss] at hshape
                | jnum n => simp [isThinkingStartShape, jobjGet, hev, hbs, hss] at hshape
                | jstr s2 => simp [isThinkingStartShape, jobjGet, hev, hbs, hss] at hshape
                | jarr xs => simp [isThinkingStartShape, jobjGet, hev, hbs, hss] at hshape
                | jobj sfs =>
                  simp only [isThinkingStartShape, jobjGet, hev, hbs, hss,
                    Bool.and_eq_true, Bool.not_eq_true'] at hshape
                  obtain ⟨⟨h1, h2⟩, hkr⟩ := hshape
                  have hcsm : keyMem efs cbStartKey = true :=
                    jget_keyMem efs cbStartKey _ hbs
                  have hevmem : keyMem df eventKey = true := jget_keyMem df eventKey _ hev
                  have hstep : parseJsonLine flag line
                      = classifyEvent flag line (.jobj efs) := by
                    unfold parseJsonLine
                    rw [hload]
                    simp [hstrip, classifyData, dispatchTop, pyIn, hevmem, pyIndex, hev]
                  rw [hstep]
                  unfold classifyEvent classifyStart
                  simp only [pyIn, h1, h2, hcsm, pyIndex, hbs, pyGet, hss,
                    Option.getD_some, hkr]

theorem c5_reasoning_flag_witness :
    ((parseJsonLine true (("\x7b\"event\":\x7b\"contentBlockStop\":\x7b\x7d\x7d\x7d").toList)).1 = false ∧
      (parseJsonLine true (("\x7b\"event\":\x7b\"contentBlockStop\":\x7b\x7d\x7d\x7d").toList)).2.eventType?
        = some EventType.thinking_stop) ∧
    parseJsonLine false
        (("\x7b\"event\":\x7b\"contentBlockStart\":\x7b\"start\":\x7b\"reasoningContent\":\x7b\x7d\x7d\x7d\x7d\x7d").toList)
      = (true, .ev ⟨.thinking_start, .jobj [],
          ("\x7b\"event\":\x7b\"contentBlockStart\":\x7b\"start\":\x7b\"reasoningContent\":\x7b\x7d\x7d\x7d\x7d\x7d").toList⟩) :=
  ⟨(c5_reasoning_flag true (("\x7b\"event\":\x7b\"contentBlockStop\":\x7b\x7d\x7d\x7d").toList)).2.1
      (.jobj [(("event").toList, .jobj [(("contentBlockStop").toList, .jobj [])])])
      (by rfl) (by rfl) (by rfl),
   (c5_reasoning_flag false
      (("\x7b\"event\":\x7b\"contentBlockStart\":\x7b\"start\":\x7b\"reasoningContent\":\x7b\x7d\x7d\x7d\x7d\x7d").toList)).2.2
      (.jobj [(("event").toList, .jobj [(("contentBlockStart").toList,
        .jobj [(("start").toList, .jobj [(("reasoningContent").toList, .jobj [])])])])])
      (by rfl) (by rfl) (by rfl)⟩

theorem jscalarEq_refl (k : JValue) (h : unhashable k = false) :
    jscalarEq k k = true := by
  cases k with
  | jnull => rfl
  | jbool b => simp [jscalarEq]
  | jnum n => simp [jscalarEq]
  | jstr s => simp [jscalarEq]
  | jarr xs => simp [unhashable] at h
  | jobj f => simp [unhashable] at h

theorem dictMem_of_dictGet (buf : List (JValue × ToolAcc)) (k : JValue) (acc : ToolAcc)
    (h : dictGet buf k = some acc) : dictMem buf k = true := by
  induction buf with
  | nil => simp [dictGet] at h
  | cons p buf ih =>
    by_cases hp : jscalarEq p.1 k = true
    · simp only [dictMem, List.any_cons, hp, Bool.true_or]
    · have hpf : jscalarEq p.1 k = false := by simpa using hp
      have h2 : dictGet buf k = some acc := by
        simpa [dictGet, List.find?_cons, hpf] using h
      simp only [dictMem, List.any_cons, hpf, Bool.false_or]
      exact ih h2

theorem dictGet_insert (buf : List (JValue × ToolAcc)) (k : JValue) (v : ToolAcc)
    (hrefl : jscalarEq k k = true) :
    dictGet (dictInsert buf k v) k = some v := by
  unfold dictInsert
  by_cases hmem : dictMem buf k = true
  · rw [if_pos hmem]
    unfold dictMem at hmem
    induction buf with
    | nil => simp at hmem
    | cons p buf ih =>
      by_cases hp : jscalarEq p.1 k = true
      · simp [dictGet, List.find?_cons, hp, hrefl]
      · have hpf : jscalarEq p.1 k = false := by simpa using hp
        have hmem2 : buf.any (fun p => jscalarEq p.1 k) = true := by
          simpa [List.any_cons, hpf] using hmem
        have := ih hmem2
        simpa [dictGet, List.find?_cons, hpf] using this
  · rw [if_neg hmem]
    have hnone : ∀ p ∈ buf, jscalarEq p.1 k = false := by
      intro p hp
      by_contra hc
      have : jscalarEq p.1 k = true := by
        cases hb : jscalarEq p.1 k
        · exact absurd hb hc
        · rfl
      exact hmem (by
        unfold dictMem
        exact List.any_eq_true.mpr ⟨p, hp, this⟩)
    induction buf with
    | nil => simp [dictGet, List.find?_cons, hrefl]
    | cons p buf ih =>
      have hpf : jscalarEq p.1 k = false := hnone p (by simp)
      have ih2 := ih (by
          intro hmem2
          exact hmem (by
            unfold dictMem at hmem2 ⊢
            simp [List.any_cons, hmem2]))
        (fun q hq => hnone q (by simp [hq]))
      simpa [dictGet, List.find?_cons, hpf] using ih2

theorem dictGet_appendInput (buf : List (JValue × ToolAcc)) (k : JValue) (acc : ToolAcc)
    (t : List Char) (h : dictGet buf k = some acc) :
    dictGet (dictAppendInput buf k t) k = some { acc with input := acc.input ++ t } := by
  induction buf with
  | nil => simp [dictGet] at h
  | cons p buf ih =>
    by_cases hp : jscalarEq p.1 k = true
    · have hacc : p.2 = acc := by
        simp [dictGet, List.find?_cons, hp] at h
        exact h
      subst hacc
      simp [dictAppendInput, dictGet, List.find?_cons, hp]
    · have hpf : jscalarEq p.1 k = false := by simpa using hp
      have h2 : dictGet buf k = some acc := by
        simpa [dictGet, List.find?_cons, hpf] using h
      have := ih h2
      simpa [dictAppendInput, dictGet, List.find?_cons, hpf] using this

theorem dictGet_del (buf : List (JValue × ToolAcc)) (k : JValue) :
    dictGet (dictDel buf k) k = none := by
  induction buf with
  | nil => rfl
  | cons p buf ih =>
    by_cases hp : jscalarEq p.1 k = true
    · simp only [dictDel, List.filter_cons, hp]
      exact ih
    · have hpf : jscalarEq p.1 k = false := by simpa using hp
      simp only [dictDel, List.filter_cons, hpf, Bool.not_false, if_true, dictGet,
        List.find?_cons]
      exact ih

theorem processEvents_append_clean (l1 : List StreamEvent) :
    ∀ (s s1 : AsmState) (l2 : List StreamEvent),
    processEvents s l1 = ⟨s1, [], false⟩ →
    processEvents s (l1 ++ l2) = processEvents s1 l2 := by
  induction l1 with
  | nil =>
    intro s s1 l2 h
    have hs : s = s1 := congrArg AsmRun.state h
    rw [List.nil_append, hs]
  | cons e l1 ih =>
    intro s s1 l2 h
    simp only [processEvents, List.cons_append] at h ⊢
    cases hp : processEvent s e with
    | mk s' out =>
      rw [hp] at h
      cases out with
      | exn => simp at h
      | ret om =>
        cases om with
        | none =>
          simp only at h
          exact ih s' s1 l2 h
        | some m0 =>
          simp only at h
          exact absurd (congrArg AsmRun.msgs h) (by simp)

theorem deltas_accumulate (ds : List (List Char)) :
    ∀ (T : AsmState) (idv nv : JValue) (raw : List Char),
    T.current_tool_id = some idv →
    dictGet T.tool_buffer idv = some ⟨idv, nv, raw⟩ →
    ∃ buf2, processEvents T (ds.map toolDeltaEv)
        = ⟨{ T with tool_buffer := buf2 }, [], false⟩ ∧
      dictGet buf2 idv = some ⟨idv, nv, raw ++ ds.flatten⟩ := by
  induction ds with
  | nil =>
    intro T idv nv raw hct hdg
    refine ⟨T.tool_buffer, rfl, ?_⟩
    simpa using hdg
  | cons d ds ih =>
    intro T idv nv raw hct hdg
    have hmem := dictMem_of_dictGet _ _ _ hdg
    have e1 : (jget [(deltaKey, JValue.jobj [(inputKey, JValue.jstr d)])] deltaKey).getD
        (JValue.jobj []) = JValue.jobj [(inputKey, JValue.jstr d)] := rfl
    have e2 : (jget [(inputKey, JValue.jstr d)] inputKey).getD (JValue.jstr []) =
        JValue.jstr d := rfl
    have hstep : processEvent T (toolDeltaEv d)
        = ({ T with tool_buffer := dictAppendInput T.tool_buffer idv d }, .ret none) := by
      simp only [processEvent, toolDeltaEv, hct, hmem, pyGet, e1, e2, if_true]
    have hget2 : dictGet (dictAppendInput T.tool_buffer idv d) idv
        = some ⟨idv, nv, raw ++ d⟩ :=
      dictGet_appendInput T.tool_buffer idv ⟨idv, nv, raw⟩ d hdg
    obtain ⟨buf2, hrun, hget⟩ :=
      ih ({ T with tool_buffer := dictAppendInput T.tool_buffer idv d }) idv nv (raw ++ d)
        hct hget2
    refine ⟨buf2, ?_, ?_⟩
    · simp only [List.map_cons, processEvents, hstep]
      exact hrun
    · rw [hget]
      simp [List.append_assoc]

/-- C4: tool-use finalization parses or degrades, never fails.  From any
assembler state with a message under construction, ToolUseStart{id, name}
followed by any sequence of ToolUseDelta texts and a closing stop event
(TOOL_USE_STOP, or CONTENT_BLOCK_STOP which closes tool blocks in streams
from this parser) appends exactly one tool-use block whose input is the JSON
value parsed from the concatenated deltas when valid and the raw concatenated
string otherwise; the run raises no exception and the accumulator for that id
is removed. -/
theorem c4_tool_finalize (S : AsmState) (m : PyMessage) (idv nv : JValue)
    (ds : List (List Char)) (hS : S.current_message = some m)
    (hh : unhashable idv = false) :
    ((processEvents S (toolStartEv idv nv :: (ds.map toolDeltaEv ++ [toolStopEv]))).raised
        = false ∧
     (processEvents S (toolStartEv idv nv :: (ds.map toolDeltaEv ++ [toolStopEv]))).msgs = [] ∧
     (processEvents S (toolStartEv idv nv ::
         (ds.map toolDeltaEv ++ [toolStopEv]))).state.current_message
       = some { m with content := m.content ++ [.toolBlock idv nv (toolFinalInput ds)] } ∧
     dictGet (processEvents S (toolStartEv idv nv ::
         (ds.map toolDeltaEv ++ [toolStopEv]))).state.tool_buffer idv = none ∧
     (processEvents S (toolStartEv idv nv ::
         (ds.map toolDeltaEv ++ [toolStopEv]))).state.current_tool_id = none) ∧
    ((processEvents S (toolStartEv idv nv :: (ds.map toolDeltaEv ++ [cbStopEv]))).raised
        = false ∧
     (processEvents S (toolStartEv idv nv :: (ds.map toolDeltaEv ++ [cbStopEv]))).msgs = [] ∧
     (processEvents S (toolStartEv idv nv ::
         (ds.map toolDeltaEv ++ [cbStopEv]))).state.current_message
       = some { m with content := m.content ++ [.toolBlock idv nv (toolFinalInput ds)] } ∧
     dictGet (processEvents S (toolStartEv idv nv ::
         (ds.map toolDeltaEv ++ [cbStopEv]))).state.tool_buffer idv = none ∧
     (processEvents S (toolStartEv idv nv ::
         (ds.map toolDeltaEv ++ [cbStopEv]))).state.current_tool_id = none) := by
  have hrefl := jscalarEq_refl idv hh
  have e1 : (jget [(idKey, idv), (nameKey, nv)] idKey).getD JValue.jnull = idv := rfl
  have e2 : (jget [(idKey, idv), (nameKey, nv)] nameKey).getD JValue.jnull = nv := rfl
  have hstep1 : processEvent S (toolStartEv idv nv)
      = ({ S with
            current_block_type := some BlockType.tool_use,
            tool_buffer := dictInsert S.tool_buffer idv (ToolAcc.mk idv nv []),
            current_tool_id := some idv }, .ret none) := by
    simp [processEvent, toolStartEv, pyGet, e1, e2, hh]
  have hins : dictGet (dictInsert S.tool_buffer idv (ToolAcc.mk idv nv [])) idv
      = some (ToolAcc.mk idv nv []) :=
    dictGet_insert S.tool_buffer idv (ToolAcc.mk idv nv []) hrefl
  obtain ⟨buf2, hrun, hget⟩ := deltas_accumulate ds
    ({ S with
       current_block_type := some BlockType.tool_use,
       tool_buffer := dictInsert S.tool_buffer idv (ToolAcc.mk idv nv []),
       current_tool_id := some idv }) idv nv [] rfl hins
  rw [List.nil_append] at hget
  have hfin : finalizeTool ({ S with
      current_block_type := some BlockType.tool_use,
      tool_buffer := buf2,
      current_tool_id := some idv }) idv
      = { S with
          current_block_type := some BlockType.tool_use,
          current_tool_id := some idv,
          current_message := some { m with
            content := m.content ++ [.toolBlock idv nv (toolFinalInput ds)] },
          tool_buffer := dictDel buf2 idv } := by
    simp only [finalizeTool, hget, hS, toolFinalInput]
  have hpre : ∀ stop : StreamEvent,
      processEvents S (toolStartEv idv nv :: (ds.map toolDeltaEv ++ [stop]))
        = processEvents ({ S with
            current_block_type := some BlockType.tool_use,
            tool_buffer := buf2,
            current_tool_id := some idv }) [stop] := by
    intro stop
    simp only [processEvents, hstep1]
    exact processEvents_append_clean (ds.map toolDeltaEv) _ _ [stop] hrun
  constructor
  · rw [hpre toolStopEv]
    have hstop : processEvent ({ S with
        current_block_type := some BlockType.tool_use,
        tool_buffer := buf2,
        current_tool_id := some idv }) toolStopEv
        = ({ finalizeTool ({ S with
              current_block_type := some BlockType.tool_use,
              tool_buffer := buf2,
              current_tool_id := some idv }) idv with
             current_tool_id := none }, .ret none) := rfl
    simp only [processEvents, hstop, hfin]
    simp [dictGet_del]
  · rw [hpre cbStopEv]
    have hstop : processEvent ({ S with
        current_block_type := some BlockType.tool_use,
        tool_buffer := buf2,
        current_tool_id := some idv }) cbStopEv
        = ({ finalizeTool ({ S with
              current_block_type := some BlockType.tool_use,
              tool_buffer := buf2,
              current_tool_id := some idv }) idv with
             current_tool_id := none,
             current_content := none,
             current_block_type := none }, .ret none) := rfl
    simp only [processEvents, hstop, hfin]
    simp [dictGet_del]

theorem c4_tool_finalize_witness :
    (processEvents ({ initAsm with
        current_message := some ⟨.jstr ("assistant".toList), [], none, .jnull, .jnull, none⟩ })
      (toolStartEv (.jstr ("t1".toList)) (.jstr ("search".toList)) ::
        ([("\x7b\"q\":").toList, ("\"x\"\x7d").toList].map toolDeltaEv ++
          [toolStopEv]))).state.current_message
      = some ⟨.jstr ("assistant".toList),
          [.toolBlock (.jstr ("t1".toList)) (.jstr ("search".toList))
            (.parsed (.jobj [(("q").toList, .jstr ("x".toList))]))],
          none, .jnull, .jnull, none⟩ ∧
    (processEvents ({ initAsm with
        current_message := some ⟨.jstr ("assistant".toList), [], none, .jnull, .jnull, none⟩ })
      (toolStartEv (.jstr ("t1".toList)) (.jstr ("search".toList)) ::
        ([("\x7b\"q\":").toList, ("\"x\"broken").toList].map toolDeltaEv ++
          [toolStopEv]))).state.current_message
      = some ⟨.jstr ("assistant".toList),
          [.toolBlock (.jstr ("t1".toList)) (.jstr ("search".toList))
            (.rawStr (("\x7b\"q\":\"x\"broken").toList))],
          none, .jnull, .jnull, none⟩ :=
  ⟨(c4_tool_finalize
      ({ initAsm with
        current_message := some ⟨.jstr ("assistant".toList), [], none, .jnull, .jnull, none⟩ })
      ⟨.jstr ("assistant".toList), [], none, .jnull, .jnull, none⟩
      (.jstr ("t1".toList)) (.jstr ("search".toList))
      [("\x7b\"q\":").toList, ("\"x\"\x7d").toList] rfl rfl).1.2.2.1,
   (c4_tool_finalize
      ({ initAsm with
        current_message := some ⟨.jstr ("assistant".toList), [], none, .jnull, .jnull, none⟩ })
      ⟨.jstr ("assistant".toList), [], none, .jnull, .jnull, none⟩
      (.jstr ("t1".toList)) (.jstr ("search".toList))
      [("\x7b\"q\":").toList, ("\"x\"broken").toList] rfl rfl).1.2.2.1⟩

theorem pyFind_le (needle : List Char) :
    ∀ (hay : List Char) (i : Nat), pyFind hay needle = some i →
    i + needle.length ≤ hay.length := by
  intro hay
  induction hay with
  | nil =>
    intro i h
    unfold pyFind at h
    split at h
    · next hp =>
      injection h with h
      subst h
      have : needle = [] := by
        cases needle with
        | nil => rfl
        | cons c t => simp [List.isPrefixOf] at hp
      subst this
      simp
    · exact absurd h (by simp)
  | cons c t ih =>
    intro i h
    unfold pyFind at h
    split at h
    · next hp =>
      injection h with h
      subst h
      have hpre : needle <+: (c :: t) := by
        exact List.isPrefixOf_iff_prefix.mp hp
      simpa using hpre.length_le
    · cases ho : pyFind t needle with
      | none => rw [ho] at h; simp at h
      | some j =>
        rw [ho] at h
        simp only [Option.map_some'] at h
        injection h with h
        subst h
        have := ih j ho
        simp only [List.length_cons]
        omega

theorem safeEnd_le (buf tag : List Char) : safeEnd buf tag ≤ buf.length := by
  unfold safeEnd
  split
  · exact Nat.sub_le _ _
  · exact Nat.le_refl _

theorem scanComplete_state (buf : List Char) (p e : Nat) (pl : List Char)
    (hfind : pyFind buf thinkEnd = some e) :
    (scanComplete buf p e pl).1.content_buffer = buf ∧
    (scanComplete buf p e pl).1.display_position ≤ buf.length := by
  unfold scanComplete
  dsimp only
  split
  · exact ⟨rfl, Nat.le_refl _⟩
  · exact ⟨rfl, pyFind_le thinkEnd buf e hfind⟩

theorem scanOnlyOpen_state (buf : List Char) (p : Nat) (pl : List Char) :
    (scanOnlyOpen buf p pl).1.content_buffer = buf ∧
    (scanOnlyOpen buf p pl).1.display_position ≤ buf.length := by
  unfold scanOnlyOpen
  dsimp only
  split
  · exact ⟨rfl, safeEnd_le _ _⟩
  · exact ⟨rfl, Nat.le_refl _⟩

/-- C7 amended: the scanner retains the entire accumulated text — each call
appends the delta to `content_buffer` and never discards previously-emitted
text; `display_position ≤ length` marks the emitted prefix.  (The withheld
suffix `content_buffer[display_position:]` is neither always a strict marker
prefix nor bounded by the marker length — see the counterexample.) -/
theorem c7_buffer_retention (st : ScanState) (t : List Char)
    (h : st.display_position ≤ st.content_buffer.length) :
    (handleContent st t).1.content_buffer = st.content_buffer ++ t ∧
    (handleContent st t).1.display_position
      ≤ (handleContent st t).1.content_buffer.length := by
  cases t with
  | nil =>
    refine ⟨by simp [handleContent], ?_⟩
    simpa [handleContent] using h
  | cons c rest =>
    have key : (handleContent st (c :: rest)).1.content_buffer
        = st.content_buffer ++ (c :: rest) ∧
        (handleContent st (c :: rest)).1.display_position
          ≤ (st.content_buffer ++ (c :: rest)).length := by
      simp only [handleContent]
      split
      · split
        · next e he => exact scanComplete_state _ _ _ _ he
        · split
          · exact ⟨rfl, safeEnd_le _ _⟩
          · exact ⟨rfl, Nat.le_refl _⟩
      · split
        · next s hs =>
          split
          · next e he =>
            split
            · exact scanComplete_state _ _ _ _ he
            · exact scanOnlyOpen_state _ _ _
          · exact scanOnlyOpen_state _ _ _
        · split
          · exact ⟨rfl, safeEnd_le _ _⟩
          · exact ⟨rfl, Nat.le_refl _⟩
    exact ⟨key.1, by rw [key.1]; exact key.2⟩

theorem c7_buffer_retention_witness :
    (handleContent scanInit (("hi").toList)).1.content_buffer
        = scanInit.content_buffer ++ ("hi").toList ∧
    (handleContent scanInit (("hi").toList)).1.display_position
      ≤ (handleContent scanInit (("hi").toList)).1.content_buffer.length :=
  c7_buffer_retention scanInit (("hi").toList) (by decide)

theorem thinking_deltas_accumulate (ds : List (List Char)) :
    ∀ (T : AsmState),
    processEvents T (ds.map thinkDeltaEv)
      = ⟨{ T with thinking_buffer := T.thinking_buffer ++ ds.map JValue.jstr },
         [], false⟩ := by
  induction ds with
  | nil =>
    intro T
    simp [processEvents]
  | cons d ds ih =>
    intro T
    have e1 : (jget [(deltaKey, JValue.jobj [(textKey, JValue.jstr d)])] deltaKey).getD
        (JValue.jobj []) = JValue.jobj [(textKey, JValue.jstr d)] := rfl
    have e2 : (jget [(textKey, JValue.jstr d)] textKey).getD (JValue.jstr []) =
        JValue.jstr d := rfl
    have hstep : processEvent T (thinkDeltaEv d)
        = ({ T with thinking_buffer := T.thinking_buffer ++ [JValue.jstr d] }, .ret none) := by
      simp only [processEvent, thinkDeltaEv, pyGet, e1, e2]
    simp only [List.map_cons, processEvents, hstep]
    rw [ih]
    simp

theorem pyJoin_map_jstr (l : List (List Char)) :
    pyJoin (l.map JValue.jstr) = .ok l.flatten := by
  induction l with
  | nil => rfl
  | cons a l ih => simp [pyJoin, ih]

theorem processEvents_cons_clean (s s' : AsmState) (e : StreamEvent)
    (es : List StreamEvent) (h : processEvent s e = (s', .ret none)) :
    processEvents s (e :: es) = processEvents s' es := by
  simp only [processEvents, h]

/-- C8 amended: the assembler has no THINKING_START branch and resets the
thinking accumulator only at MESSAGE_START, so with two thinking spans the
final message's thinking equals the concatenation of the delta texts of BOTH
spans (not the last span alone). -/
theorem c8_thinking_accumulates (ds1 ds2 : List (List Char)) (h : ds1 ++ ds2 ≠ []) :
    (processEvents initAsm
      (msgStartEv :: thinkStartEv ::
        (ds1.map thinkDeltaEv ++ (thinkStopEv :: thinkStartEv ::
          (ds2.map thinkDeltaEv ++ [thinkStopEv, msgStopEv]))))).msgs
      = [⟨.jstr ("assistant".toList), [], some ((ds1 ++ ds2).flatten), .jnull, .jnull,
          some .jnull⟩] := by
  have h0 : processEvents initAsm
      (msgStartEv :: thinkStartEv ::
        (ds1.map thinkDeltaEv ++ (thinkStopEv :: thinkStartEv ::
          (ds2.map thinkDeltaEv ++ [thinkStopEv, msgStopEv]))))
      = processEvents
          (⟨some ⟨.jstr ("assistant".toList), [], none, .jnull, .jnull, none⟩,
            none, none, [], [], [], none⟩ : AsmState)
          (ds1.map thinkDeltaEv ++ (thinkStopEv :: thinkStartEv ::
            (ds2.map thinkDeltaEv ++ [thinkStopEv, msgStopEv]))) := rfl
  rw [h0]
  rw [processEvents_append_clean (ds1.map thinkDeltaEv)
    (⟨some ⟨.jstr ("assistant".toList), [], none, .jnull, .jnull, none⟩,
      none, none, [], [], [], none⟩ : AsmState)
    (⟨some ⟨.jstr ("assistant".toList), [], none, .jnull, .jnull, none⟩,
      none, none, ds1.map JValue.jstr, [], [], none⟩ : AsmState)
    (thinkStopEv :: thinkStartEv :: (ds2.map thinkDeltaEv ++ [thinkStopEv, msgStopEv]))
    (by simp [thinking_deltas_accumulate])]
  cases ds1 with
  | nil =>
    have hs1 : processEvent
        (⟨some ⟨.jstr ("assistant".toList), [], none, .jnull, .jnull, none⟩,
          none, none, ([] : List (List Char)).map JValue.jstr, [], [], none⟩ : AsmState)
        thinkStopEv
        = ((⟨some ⟨.jstr ("assistant".toList), [], none, .jnull, .jnull, none⟩,
            none, none, [], [], [], none⟩ : AsmState), .ret none) := rfl
    rw [processEvents_cons_clean _ _ _ _ hs1]
    have hs2 : processEvent
        (⟨some ⟨.jstr ("assistant".toList), [], none, .jnull, .jnull, none⟩,
          none, none, [], [], [], none⟩ : AsmState) thinkStartEv
        = ((⟨some ⟨.jstr ("assistant".toList), [], none, .jnull, .jnull, none⟩,
            none, none, [], [], [], none⟩ : AsmState), .ret none) := rfl
    rw [processEvents_cons_clean _ _ _ _ hs2]
    rw [processEvents_append_clean (ds2.map thinkDeltaEv)
      (⟨some ⟨.jstr ("assistant".toList), [], none, .jnull, .jnull, none⟩,
        none, none, [], [], [], none⟩ : AsmState)
      (⟨some ⟨.jstr ("assistant".toList), [], none, .jnull, .jnull, none⟩,
        none, none, ds2.map JValue.jstr, [], [], none⟩ : AsmState)
      [thinkStopEv, msgStopEv]
      (by simp [thinking_deltas_accumulate])]
    cases ds2 with
    | nil => exact absurd h (by simp)
    | cons d2 ds2' =>
      have hs3 : processEvent
          (⟨some ⟨.jstr ("assistant".toList), [], none, .jnull, .jnull, none⟩,
            none, none, (d2 :: ds2').map JValue.jstr, [], [], none⟩ : AsmState)
          thinkStopEv
          = ((⟨some ⟨.jstr ("assistant".toList), [], some (d2 :: ds2').flatten, .jnull,
              .jnull, none⟩,
              none, none, (d2 :: ds2').map JValue.jstr, [], [], none⟩ : AsmState),
             .ret none) := by
        simp only [processEvent, thinkStopEv]
        rw [show ((d2 :: ds2').map JValue.jstr).isEmpty = false from rfl]
        simp only [Bool.false_eq_true, if_false, pyJoin_map_jstr]
      rw [processEvents_cons_clean _ _ _ _ hs3]
      rfl
  | cons d1 ds1' =>
    have hs1 : processEvent
        (⟨some ⟨.jstr ("assistant".toList), [], none, .jnull, .jnull, none⟩,
          none, none, (d1 :: ds1').map JValue.jstr, [], [], none⟩ : AsmState)
        thinkStopEv
        = ((⟨some ⟨.jstr ("assistant".toList), [], some (d1 :: ds1').flatten, .jnull,
            .jnull, none⟩,
            none, none, (d1 :: ds1').map JValue.jstr, [], [], none⟩ : AsmState),
           .ret none) := by
      simp only [processEvent, thinkStopEv]
      rw [show ((d1 :: ds1').map JValue.jstr).isEmpty = false from rfl]
      simp only [Bool.false_eq_true, if_false, pyJoin_map_jstr]
    rw [processEvents_cons_clean _ _ _ _ hs1]
    have hs2 : processEvent
        (⟨some ⟨.jstr ("assistant".toList), [], some (d1 :: ds1').flatten, .jnull,
          .jnull, none⟩,
          none, none, (d1 :: ds1').map JValue.jstr, [], [], none⟩ : AsmState)
        thinkStartEv
        = ((⟨some ⟨.jstr ("assistant".toList), [], some (d1 :: ds1').flatten, .jnull,
            .jnull, none⟩,
            none, none, (d1 :: ds1').map JValue.jstr, [], [], none⟩ : AsmState),
           .ret none) := rfl
    rw [processEvents_cons_clean _ _ _ _ hs2]
    rw [processEvents_append_clean (ds2.map thinkDeltaEv)
      (⟨some ⟨.jstr ("assistant".toList), [], some (d1 :: ds1').flatten, .jnull,
          .jnull, none⟩,
        none, none, (d1 :: ds1').map JValue.jstr, [], [], none⟩ : AsmState)
      (⟨some ⟨.jstr ("assistant".toList), [], some (d1 :: ds1').flatten, .jnull,
          .jnull, none⟩,
        none, none, (d1 :: ds1').map JValue.jstr ++ ds2.map JValue.jstr, [], [],
        none⟩ : AsmState)
      [thinkStopEv, msgStopEv]
      (by simp [thinking_deltas_accumulate])]
    have hj12 : pyJoin ((d1 :: ds1').map JValue.jstr ++ ds2.map JValue.jstr)
        = .ok ((d1 :: ds1') ++ ds2).flatten := by
      rw [← List.map_append, pyJoin_map_jstr]
    have hs3 : processEvent
        (⟨some ⟨.jstr ("assistant".toList), [], some (d1 :: ds1').flatten, .jnull,
          .jnull, none⟩,
          none, none, (d1 :: ds1').map JValue.jstr ++ ds2.map JValue.jstr, [], [],
          none⟩ : AsmState)
        thinkStopEv
        = ((⟨some ⟨.jstr ("assistant".toList), [], some ((d1 :: ds1') ++ ds2).flatten,
            .jnull, .jnull, none⟩,
            none, none, (d1 :: ds1').map JValue.jstr ++ ds2.map JValue.jstr, [], [],
            none⟩ : AsmState), .ret none) := by
      simp only [processEvent, thinkStopEv]
      rw [show ((d1 :: ds1').map JValue.jstr ++ ds2.map JValue.jstr).isEmpty = false
        from rfl]
      simp only [Bool.false_eq_true, if_false, hj12]
    rw [processEvents_cons_clean _ _ _ _ hs3]
    rfl

theorem c8_thinking_accumulates_witness :
    (processEvents initAsm
      (msgStartEv :: thinkStartEv ::
        ([("a").toList].map thinkDeltaEv ++ (thinkStopEv :: thinkStartEv ::
          ([("b").toList].map thinkDeltaEv ++ [thinkStopEv, msgStopEv]))))).msgs
      = [⟨.jstr ("assistant".toList), [],
          some (([("a").toList] ++ [("b").toList]).flatten), .jnull, .jnull,
          some .jnull⟩] :=
  c8_thinking_accumulates [("a").toList] [("b").toList] (by simp)
